import Mathlib

/-!
Verification of the compas planar-mesh core: a shallow embedding of
`src/compas/datastructures/mesh/operations/split.py` and
`src/compas/geometry/triangulation.py`, together with spec-modelled versions of
the mesh protocol and geometric predicates those files import (the `Mesh`
class and `compas.geometry` predicates are not part of the sources here).

Python dicts are embedded as association lists (`List (Nat × β)`) preserving
insertion-order iteration; machine floats are embedded as exact `ℚ` (and `ℝ`
where square roots occur); `raise` becomes `Except.error`.
-/

namespace Compas

/-- A 3d coordinate record, standing for the Python `{'x': _, 'y': _, 'z': _}`
vertex attribute dictionaries and coordinate triples. -/
structure P3 (α : Type) where
  x : α
  y : α
  z : α
deriving DecidableEq

/-- The error outcomes of the embedded operations.  `valueError`, `keyError`
and `nameError` mirror the Python exceptions; `notOnFace` and `adjacent` are
the two distinguished `ValueError`s of `mesh_split_face`; `degenerate` is the
spec's `Degenerate` failure of `circle_from_points`; `fuelOut` is the
embedding artefact bounding the Lawson `while` loop. -/
inductive MErr where
  | valueError
  | keyError
  | nameError
  | notOnFace
  | adjacent
  | degenerate
  | boundaryFlip
  | notTriangle
  | fuelOut
deriving DecidableEq

/-! ### Association lists standing for Python dicts -/

/-- Dict lookup: `d[k]` as an `Option`. -/
def dget (k : Nat) : List (Nat × β) → Option β
  | [] => none
  | (k', v) :: d => if k = k' then some v else dget k d

/-- Dict assignment `d[k] = v`: replaces in place when the key exists
(keeping its position, as Python dicts do), appends otherwise. -/
def dinsert (k : Nat) (v : β) : List (Nat × β) → List (Nat × β)
  | [] => [(k, v)]
  | (k', v') :: d => if k = k' then (k, v) :: d else (k', v') :: dinsert k v d

/-- Dict deletion `del d[k]`. -/
def ddel (k : Nat) : List (Nat × β) → List (Nat × β)
  | [] => []
  | (k', v') :: d => if k' = k then ddel k d else (k', v') :: ddel k d

@[simp] theorem dget_nil (k : Nat) : dget k ([] : List (Nat × β)) = none := rfl

theorem dget_cons (k k' : Nat) (v : β) (d : List (Nat × β)) :
    dget k ((k', v) :: d) = if k = k' then some v else dget k d := rfl

@[simp] theorem dget_dinsert_self (k : Nat) (v : β) (d : List (Nat × β)) :
    dget k (dinsert k v d) = some v := by
  induction d with
  | nil => simp [dget, dinsert]
  | cons p d ih =>
    obtain ⟨k', v'⟩ := p
    by_cases h : k = k' <;> simp [dget, dinsert, h, ih]

theorem dget_dinsert_ne (a k : Nat) (v : β) (d : List (Nat × β)) (h : a ≠ k) :
    dget a (dinsert k v d) = dget a d := by
  induction d with
  | nil => simp [dget, dinsert, h]
  | cons p d ih =>
    obtain ⟨k', v'⟩ := p
    by_cases h1 : k = k'
    · subst h1; simp [dget, dinsert, h]
    · by_cases h2 : a = k' <;> simp [dget, dinsert, h1, h2, ih]

@[simp] theorem dget_ddel_self (k : Nat) (d : List (Nat × β)) :
    dget k (ddel k d) = none := by
  induction d with
  | nil => simp [ddel]
  | cons p d ih =>
    obtain ⟨k', v'⟩ := p
    by_cases h : k' = k
    · simp [ddel, h, ih]
    · have h' : k ≠ k' := fun hh => h hh.symm
      simp [ddel, dget, h, h', ih]

theorem dget_ddel_ne (a k : Nat) (d : List (Nat × β)) (h : a ≠ k) :
    dget a (ddel k d) = dget a d := by
  induction d with
  | nil => simp [ddel]
  | cons p d ih =>
    obtain ⟨k', v'⟩ := p
    by_cases h1 : k' = k
    · subst h1
      have h2 : a ≠ k' := h
      simp [ddel, dget, h2, ih]
    · by_cases h2 : a = k' <;> simp [ddel, dget, h1, h2, ih]

theorem dget_append_left (k : Nat) (l1 l2 : List (Nat × β)) (x : β)
    (h : dget k l1 = some x) : dget k (l1 ++ l2) = some x := by
  induction l1 with
  | nil => simp [dget] at h
  | cons p l1 ih =>
    obtain ⟨k', v'⟩ := p
    by_cases h1 : k = k' <;> simp_all [dget]

theorem dget_append_right (k : Nat) (l1 l2 : List (Nat × β))
    (h : dget k l1 = none) : dget k (l1 ++ l2) = dget k l2 := by
  induction l1 with
  | nil => simp
  | cons p l1 ih =>
    obtain ⟨k', v'⟩ := p
    by_cases h1 : k = k' <;> simp_all [dget]

theorem mem_keys_of_dget (k : Nat) (d : List (Nat × β)) (x : β)
    (h : dget k d = some x) : k ∈ d.map Prod.fst := by
  induction d with
  | nil => simp [dget] at h
  | cons p d ih =>
    obtain ⟨k', v'⟩ := p
    by_cases h1 : k = k' <;> simp_all [dget]

theorem keys_dinsert_of_mem (k : Nat) (v : β) (d : List (Nat × β))
    (h : k ∈ d.map Prod.fst) : (dinsert k v d).map Prod.fst = d.map Prod.fst := by
  induction d with
  | nil => simp at h
  | cons p d ih =>
    obtain ⟨k', v'⟩ := p
    by_cases h1 : k = k'
    · subst h1; simp [dinsert]
    · simp only [List.map_cons, List.mem_cons] at h
      rcases h with h | h

      · exact absurd h h1
      · simp [dinsert, h1, ih h]

/-! ### The half-edge directory: a dict of dicts -/

/-- The half-edge directory type: `mesh.halfedge` is a dict from a vertex key
to a dict from a vertex key to a face key or the `None` sentinel. -/
abbrev HEdge := List (Nat × List (Nat × Option Nat))

/-- Lookup `mesh.halfedge[u][v]`: `none` when either key is missing (a Python
`KeyError`), `some x` when the stored value is `x` (itself an `Option`:
`none` is the Python `None` "outside" sentinel). -/
def lookup2 (he : HEdge) (u v : Nat) : Option (Option Nat) :=
  match dget u he with
  | none => none
  | some d => dget v d

/-- Assignment `mesh.halfedge[u][v] = x`, creating the inner dict when absent. -/
def hset (u v : Nat) (x : Option Nat) (he : HEdge) : HEdge :=
  match dget u he with
  | some d => dinsert u (dinsert v x d) he
  | none => he ++ [(u, [(v, x)])]

/-- Deletion `del mesh.halfedge[u][v]` (a no-op when absent; every use in the embedded
operations is guarded by a successful lookup). -/
def hdel (u v : Nat) (he : HEdge) : HEdge :=
  match dget u he with
  | some d => dinsert u (ddel v d) he
  | none => he

theorem lookup2_hset_self (he : HEdge) (u v : Nat) (x : Option Nat) :
    lookup2 (hset u v x he) u v = some x := by
  unfold hset
  cases h : dget u he with
  | some d => simp [lookup2, h]
  | none =>
    unfold lookup2
    rw [dget_append_right u he _ h]
    simp [dget]

theorem lookup2_hset_outer_ne (he : HEdge) (u v a b : Nat) (x : Option Nat)
    (h : a ≠ u) : lookup2 (hset u v x he) a b = lookup2 he a b := by
  unfold hset
  cases h1 : dget u he with
  | some d => unfold lookup2; rw [dget_dinsert_ne a u _ _ h]
  | none =>
    unfold lookup2
    cases h2 : dget a he with
    | some d2 => rw [dget_append_left a he _ d2 h2]
    | none => rw [dget_append_right a he _ h2]; simp [dget, h]

theorem lookup2_hset_inner_ne (he : HEdge) (u v b : Nat) (x : Option Nat)
    (h : b ≠ v) : lookup2 (hset u v x he) u b = lookup2 he u b := by
  unfold hset
  cases h1 : dget u he with
  | some d =>
    unfold lookup2
    rw [h1, dget_dinsert_self]
    simp only []
    rw [dget_dinsert_ne b v _ _ h]
  | none =>
    unfold lookup2
    rw [h1, dget_append_right u he _ h1]
    simp [dget, h]

theorem lookup2_hdel_self (he : HEdge) (u v : Nat) (d : List (Nat × Option Nat))
    (h : dget u he = some d) : lookup2 (hdel u v he) u v = none := by
  unfold hdel
  rw [h]
  simp [lookup2]

theorem lookup2_hdel_outer_ne (he : HEdge) (u v a b : Nat)
    (h : a ≠ u) : lookup2 (hdel u v he) a b = lookup2 he a b := by
  unfold hdel
  cases h1 : dget u he with
  | some d => unfold lookup2; rw [dget_dinsert_ne a u _ _ h]
  | none => rfl

theorem lookup2_hdel_inner_ne (he : HEdge) (u v b : Nat)
    (h : b ≠ v) : lookup2 (hdel u v he) u b = lookup2 he u b := by
  unfold hdel
  cases h1 : dget u he with
  | some d =>
    unfold lookup2
    rw [h1, dget_dinsert_self]
    simp only []
    rw [dget_ddel_ne b v _ h]
  | none => rfl

theorem dget_hset_self (he : HEdge) (u v : Nat) (x : Option Nat)
    (d : List (Nat × Option Nat)) (h : dget u he = some d) :
    dget u (hset u v x he) = some (dinsert v x d) := by
  unfold hset
  rw [h]
  simp

theorem dget_hset_outer_ne (he : HEdge) (u v a : Nat) (x : Option Nat)
    (h : a ≠ u) : dget a (hset u v x he) = dget a he := by
  unfold hset
  cases h1 : dget u he with
  | some d => exact dget_dinsert_ne a u _ _ h
  | none =>
    cases h2 : dget a he with
    | some d2 => exact dget_append_left a he _ d2 h2
    | none => rw [dget_append_right a he _ h2]; simp [dget, h]

theorem lookup2_some_outer (he : HEdge) (u v : Nat) (x : Option Nat)
    (h : lookup2 he u v = some x) :
    ∃ d, dget u he = some d ∧ dget v d = some x := by
  unfold lookup2 at h
  cases h1 : dget u he with
  | none => rw [h1] at h; cases h
  | some d => rw [h1] at h; exact ⟨d, rfl, h⟩

theorem dget_hdel_outer_ne (he : HEdge) (u v a : Nat) (h : a ≠ u) :
    dget a (hdel u v he) = dget a he := by
  unfold hdel
  cases h1 : dget u he with
  | some d => exact dget_dinsert_ne a u _ _ h
  | none => rfl

/-! ### The mesh -/

/-- The half-edge mesh: vertex, face and half-edge dicts plus the monotone
key allocators (spec §3: "keys are allocated monotonically"). -/
structure Mesh (α : Type) where
  vertex : List (Nat × P3 α)
  face : List (Nat × List Nat)
  halfedge : HEdge
  nextV : Nat
  nextF : Nat
deriving DecidableEq

/-- The empty mesh `Mesh()`. -/
def Mesh.empty : Mesh α := ⟨[], [], [], 0, 0⟩

/-- Python slice rotation `l[n:] + l[:n]`, used to pair each face cycle with
its successor cycle. -/
def rot (n : Nat) (l : List α) : List α := l.drop n ++ l.take n

/-- Ensure `halfedge[k]` exists (compas initialises `halfedge[key] = {}` when
a vertex is added). -/
def heEnsure (k : Nat) (he : HEdge) : HEdge :=
  match dget k he with
  | some _ => he
  | none => he ++ [(k, [])]

/-- Modelled from the spec: `add_vertex(x=..., y=..., z=...)` with an
auto-allocated key (the `Mesh` class is not among the sources; spec §6 and §3:
keys allocated monotonically, half-edge entry initialised). -/
def add_vertex (m : Mesh α) (p : P3 α) : Mesh α × Nat :=
  let k := m.nextV
  ({ m with vertex := dinsert k p m.vertex,
            halfedge := heEnsure k m.halfedge,
            nextV := k + 1 }, k)

/-- Modelled from the spec: `add_vertex(key, {...})` with an explicit key. -/
def add_vertex_key (m : Mesh α) (k : Nat) (p : P3 α) : Mesh α :=
  { m with vertex := dinsert k p m.vertex,
           halfedge := heEnsure k m.halfedge,
           nextV := max m.nextV (k + 1) }

/-- Modelled from the spec: `add_face(cycle, fkey?)` (spec §3 invariants 1-2):
stores the cycle under `fkey` (auto-allocated when absent), maps every
directed edge of the cycle to the face, and installs an outside twin for any
directed edge whose twin is not yet present. -/
def add_face (m : Mesh α) (key : Option Nat) (cyc : List Nat) : Mesh α × Nat :=
  let fk := match key with
    | some k => k
    | none => m.nextF
  let he := (cyc.zip (rot 1 cyc)).foldl (fun h e =>
      let h1 := hset e.1 e.2 (some fk) h
      match lookup2 h1 e.2 e.1 with
      | some _ => h1
      | none => hset e.2 e.1 none h1) m.halfedge
  ({ m with face := dinsert fk cyc m.face,
            halfedge := he,
            nextF := max m.nextF (fk + 1) }, fk)

/-- Modelled from the spec: `delete_face(fkey)` (spec §3 lifecycle): removes
the face; each of its directed edges reverts to outside when its twin is
another face, and disappears together with its twin otherwise. -/
def delete_face (m : Mesh α) (fkey : Nat) : Mesh α :=
  match dget fkey m.face with
  | none => m
  | some cyc =>
    let he := (cyc.zip (rot 1 cyc)).foldl (fun h e =>
        match lookup2 h e.2 e.1 with
        | some (some _) => hset e.1 e.2 none h
        | _ => hdel e.2 e.1 (hdel e.1 e.2 h)) m.halfedge
    { m with face := ddel fkey m.face, halfedge := he }

@[simp] theorem delete_face_vertex (m : Mesh α) (fkey : Nat) :
    (delete_face m fkey).vertex = m.vertex := by
  unfold delete_face
  cases dget fkey m.face <;> rfl

theorem dget_delete_face (m : Mesh α) (fkey k : Nat) :
    dget k (delete_face m fkey).face =
      if k = fkey then none else dget k m.face := by
  unfold delete_face
  cases h : dget fkey m.face with
  | none =>
    by_cases hk : k = fkey
    · subst hk; simp [h]
    · simp [hk]
  | some cyc =>
    by_cases hk : k = fkey
    · subst hk; simp
    · simp [hk, dget_ddel_ne k fkey _ hk]

theorem heEnsure_none (k : Nat) (he : HEdge) (h : dget k he = none) :
    heEnsure k he = he ++ [(k, [])] := by
  unfold heEnsure
  rw [h]

theorem add_vertex_face (m : Mesh α) (p : P3 α) :
    (add_vertex m p).1.face = m.face := rfl

theorem add_vertex_vertex (m : Mesh α) (p : P3 α) :
    (add_vertex m p).1.vertex = dinsert m.nextV p m.vertex := rfl

theorem add_vertex_halfedge (m : Mesh α) (p : P3 α) :
    (add_vertex m p).1.halfedge = heEnsure m.nextV m.halfedge := rfl

/-! ### Python list primitives used by the split operations -/

/-- Python `list.index(a)`: index of the first occurrence (callers guard
membership, where Python would raise `ValueError`). -/
def pyIndex (a : Nat) : List Nat → Nat
  | [] => 0
  | b :: l => if a = b then 0 else pyIndex a l + 1

/-- Python `list.insert(j, w)`. -/
def pyInsert (j : Nat) (w : Nat) : List Nat → List Nat
  | l => match j, l with
    | 0, l => w :: l
    | _ + 1, [] => [w]
    | j + 1, x :: l => x :: pyInsert j w l

theorem pyIndex_append (a : Nat) (A l : List Nat) (h : a ∉ A) :
    pyIndex a (A ++ l) = A.length + pyIndex a l := by
  induction A with
  | nil => simp
  | cons b A ih =>
    have hab : a ≠ b := by simp at h; exact h.1
    have ha : a ∉ A := by simp at h; exact h.2
    simp [pyIndex, hab, ih ha]
    omega

theorem pyIndex_cons_self (a : Nat) (l : List Nat) : pyIndex a (a :: l) = 0 := by
  simp [pyIndex]

theorem pyIndex_first (a : Nat) (A B : List Nat) (h : a ∉ A) :
    pyIndex a (A ++ a :: B) = A.length := by
  rw [pyIndex_append a A _ h, pyIndex_cons_self]
  omega

theorem pyInsert_append (w : Nat) (A l : List Nat) :
    pyInsert A.length w (A ++ l) = A ++ w :: l := by
  induction A with
  | nil => cases l <;> rfl
  | cons b A ih => simpa [pyInsert] using ih

theorem take_append_len (A l : List α) (k : Nat) :
    (A ++ l).take (A.length + k) = A ++ l.take k := by
  induction A with
  | nil => simp
  | cons b A ih =>
    have h1 : (b :: A).length + k = (A.length + k) + 1 := by
      simp only [List.length_cons]; omega
    rw [List.cons_append, h1, List.take_succ_cons, ih, List.cons_append]

theorem drop_append_len (A l : List α) (k : Nat) :
    (A ++ l).drop (A.length + k) = l.drop k := by
  induction A with
  | nil => simp
  | cons b A ih =>
    have h1 : (b :: A).length + k = (A.length + k) + 1 := by
      simp only [List.length_cons]; omega
    rw [List.cons_append, h1, List.drop_succ_cons, ih]

theorem take_append_le (A l : List α) (n : Nat) (h : n ≤ A.length) :
    (A ++ l).take n = A.take n := by
  induction A generalizing n with
  | nil =>
    have h0 : n = 0 := by simpa using h
    subst h0; simp
  | cons b A ih =>
    cases n with
    | zero => simp
    | succ n =>
      simp only [List.length_cons, Nat.succ_le_succ_iff] at h
      simp [List.take, ih n h]

/-! ### The split operations (`split.py`) -/

/-- Lines 62-64 and 72-74 of `mesh_split_edge`: when the half-edge's face is
not the `None` face, insert `w` into its cycle immediately before `tgt`
(`j = mesh.face[fkey].index(tgt); mesh.face[fkey].insert(j, w)`). -/
def faceInsertBefore (fcs : List (Nat × List Nat)) (fkey_opt : Option Nat)
    (w tgt : Nat) : Except MErr (List (Nat × List Nat)) :=
  match fkey_opt with
  | none => .ok fcs
  | some fk =>
    match dget fk fcs with
    | none => .error .keyError
    | some cyc =>
      if tgt ∈ cyc then .ok (dinsert fk (pyInsert (pyIndex tgt cyc) w cyc) fcs)
      else .error .valueError

/-- The point `mesh.edge_point(u, v, t)`, modelled from the spec: the interpolated
point `a + t·(b − a)`. -/
def edge_point (a b : P3 ℚ) (t : ℚ) : P3 ℚ :=
  ⟨a.x + t * (b.x - a.x), a.y + t * (b.y - a.y), a.z + t * (b.z - a.z)⟩

/-- The operation `mesh_split_edge(mesh, u, v, t, allow_boundary)` (split.py lines 21-76).
Returns the updated mesh together with `some w` (the split vertex) or `none`
(the silent boundary no-op). -/
def mesh_split_edge (m : Mesh ℚ) (u v : Nat) (t : ℚ) (allow_boundary : Bool) :
    Except MErr (Mesh ℚ × Option Nat) :=
  if t ≤ 0 then .error .valueError
  else if 1 ≤ t then .error .valueError
  else
    match lookup2 m.halfedge u v, lookup2 m.halfedge v u with
    | some fkey_uv, some fkey_vu =>
      if ¬allow_boundary ∧ (fkey_uv = none ∨ fkey_vu = none) then .ok (m, none)
      else
        match dget u m.vertex, dget v m.vertex with
        | some pu, some pv =>
          let xyz := edge_point pu pv t
          let w := m.nextV
          let m1 := (add_vertex m xyz).1
          let he3 := hdel u v (hset w v fkey_uv (hset u w fkey_uv m1.halfedge))
          match faceInsertBefore m1.face fkey_uv w v with
          | .error e => .error e
          | .ok fcs1 =>
            let he6 := hdel v u (hset w u fkey_vu (hset v w fkey_vu he3))
            match faceInsertBefore fcs1 fkey_vu w u with
            | .error e => .error e
            | .ok fcs2 =>
              .ok ({ m1 with halfedge := he6, face := fcs2 }, some w)
        | _, _ => .error .keyError
    | _, _ => .error .keyError

theorem faceInsertBefore_some (fcs : List (Nat × List Nat)) (fk w tgt : Nat)
    (A B : List Nat) (h : dget fk fcs = some (A ++ tgt :: B)) (htA : tgt ∉ A) :
    faceInsertBefore fcs (some fk) w tgt =
      .ok (dinsert fk (A ++ w :: tgt :: B) fcs) := by
  unfold faceInsertBefore
  dsimp only
  rw [h]
  dsimp only
  rw [if_pos (by simp)]
  rw [pyIndex_first tgt A B htA, pyInsert_append]

/-- The operation `mesh_split_face(mesh, fkey, u, v)` (split.py lines 180-212). -/
def mesh_split_face (m : Mesh α) (fkey u v : Nat) :
    Except MErr (Mesh α × Nat × Nat) :=
  match dget fkey m.face with
  | none => .error .keyError
  | some face =>
    if u ∉ face ∨ v ∉ face then .error .notOnFace
    else
      let i := pyIndex u face
      let j := pyIndex v face
      if i + 1 = j then .error .adjacent
      else
        let f := if i < j then (face.drop i).take (j + 1 - i)
                 else face.drop i ++ face.take (j + 1)
        let g := if i < j then face.drop j ++ face.take (i + 1)
                 else (face.drop j).take (i + 1 - j)
        let p1 := add_face m none f
        let p2 := add_face p1.1 none g
        .ok ({ p2.1 with face := ddel fkey p2.1.face }, p1.2, p2.2)

/-! ### Cyclic adjacency and arcs of a face cycle (the spec's vocabulary) -/

/-- The vertex that immediately follows `u` in the cycle `C`, wrapping
around. -/
def cyclicNext (C : List Nat) (u : Nat) : Option Nat :=
  C.get? ((pyIndex u C + 1) % C.length)

/-- Vertices `u` and `v` are cyclically adjacent in `C`: one immediately follows the
other, including the wrap-around between last and first. -/
def cyclicAdj (C : List Nat) (u v : Nat) : Prop :=
  cyclicNext C u = some v ∨ cyclicNext C v = some u

instance (C : List Nat) (u v : Nat) : Decidable (cyclicAdj C u v) := by
  unfold cyclicAdj; infer_instance

/-- The arc of the cycle `C` from `a` to `b`, both inclusive, traversed in
the sense of `C`: rotate `C` to start at `a`, then keep everything up to and
including `b`.  This is the spec's description of the two faces produced by
`split_face`. -/
def arcFromTo (C : List Nat) (a b : Nat) : List Nat :=
  let r := C.drop (pyIndex a C) ++ C.take (pyIndex a C)
  r.take (pyIndex b r + 1)

/-! ### Geometric predicates (xy-plane, exact rationals for the floats) -/

/-- The z-component of the cross product `(b − a) × (c − a)`. -/
def crossz (a b c : P3 ℚ) : ℚ :=
  (b.x - a.x) * (c.y - a.y) - (b.y - a.y) * (c.x - a.x)

/-- Modelled from the spec: `is_point_in_triangle_xy(p, [a, b, c], inclusive)`
(not among the sources) — same-sign check of the three edge cross products;
inclusive mode treats zero as inside. -/
def is_point_in_triangle_xy (p : P3 ℚ) (tri : List (P3 ℚ)) (inclusive : Bool) :
    Bool :=
  match tri with
  | [a, b, c] =>
    let c1 := crossz a b p
    let c2 := crossz b c p
    let c3 := crossz c a p
    if inclusive then
      decide ((0 ≤ c1 ∧ 0 ≤ c2 ∧ 0 ≤ c3) ∨ (c1 ≤ 0 ∧ c2 ≤ 0 ∧ c3 ≤ 0))
    else
      decide ((0 < c1 ∧ 0 < c2 ∧ 0 < c3) ∨ (c1 < 0 ∧ c2 < 0 ∧ c3 < 0))
  | _ => false

/-- Modelled from the spec: `circle_from_points_xy(a, b, c)` (not among the
sources) returns `(center, radius, normal)` and fails with `Degenerate` when
the points are colinear; the radius is carried as its square to stay in
exact arithmetic (the spec's strict radius comparison is unaffected). -/
def circle_from_points_xy (a b c : P3 ℚ) : Option (P3 ℚ × ℚ × P3 ℚ) :=
  let d := 2 * (a.x * (b.y - c.y) + b.x * (c.y - a.y) + c.x * (a.y - b.y))
  if d = 0 then none
  else
    let ux := ((a.x ^ 2 + a.y ^ 2) * (b.y - c.y) + (b.x ^ 2 + b.y ^ 2) * (c.y - a.y) +
               (c.x ^ 2 + c.y ^ 2) * (a.y - b.y)) / d
    let uy := ((a.x ^ 2 + a.y ^ 2) * (c.x - b.x) + (b.x ^ 2 + b.y ^ 2) * (a.x - c.x) +
               (c.x ^ 2 + c.y ^ 2) * (b.x - a.x)) / d
    some (⟨ux, uy, 0⟩, (a.x - ux) ^ 2 + (a.y - uy) ^ 2, ⟨0, 0, 1⟩)

/-- Modelled from the spec: `is_point_in_circle_xy(p, circle)` — strict
inequality `‖p − center‖ < radius`, in squared form. -/
def is_point_in_circle_xy (p : P3 ℚ) (circle : P3 ℚ × ℚ × P3 ℚ) : Bool :=
  decide ((p.x - circle.1.x) ^ 2 + (p.y - circle.1.y) ^ 2 < circle.2.1)

/-- Modelled from the spec: `is_point_in_polygon_xy(p, polygon)` (not among
the sources) — even-odd ray casting on the implicitly closed polygon. -/
def is_point_in_polygon_xy (p : P3 ℚ) (poly : List (P3 ℚ)) : Bool :=
  (poly.zip (rot 1 poly)).foldl (fun inside e =>
    if (¬((e.1.y > p.y) ↔ (e.2.y > p.y))) ∧
       p.x < (e.2.x - e.1.x) * (p.y - e.1.y) / (e.2.y - e.1.y) + e.1.x
    then !inside else inside) false

/-- Modelled from the spec: `centroid_points` — the arithmetic mean. -/
def centroid_points [DivisionRing α] (pts : List (P3 α)) : P3 α :=
  ⟨(pts.map P3.x).sum / (pts.length : α),
   (pts.map P3.y).sum / (pts.length : α),
   (pts.map P3.z).sum / (pts.length : α)⟩

/-- Modelled from the spec: `add_vectors`. -/
def add_vectors [Add α] (a b : P3 α) : P3 α := ⟨a.x + b.x, a.y + b.y, a.z + b.z⟩

/-- Modelled from the spec: `mesh.face_centroid(fkey)` — the centroid of the
face's vertex coordinates (total, with junk on dangling references). -/
def face_centroid (m : Mesh ℚ) (fkey : Nat) : P3 ℚ :=
  match dget fkey m.face with
  | none => ⟨0, 0, 0⟩
  | some cyc => centroid_points (cyc.map (fun k => (dget k m.vertex).getD ⟨0, 0, 0⟩))

/-! ### The super-triangle bootstrap (`delaunay_from_points`, lines 155-184,
over ℝ, since the bounding-box diagonal is a Euclidean length) -/

/-- Modelled from the spec: `bounding_box` (not among the sources) — the
axis-aligned corners of the xy bounding box in the cycle order
`[min, (xmax, ymin), max, (xmin, ymax)]`, so that entries 0 and 2 are the
diagonal pair measured by the code. -/
noncomputable def bounding_box (pts : List (P3 ℝ)) : List (P3 ℝ) :=
  let xs := pts.map P3.x
  let ys := pts.map P3.y
  let xmin := xs.foldl min (xs.headD 0)
  let xmax := xs.foldl max (xs.headD 0)
  let ymin := ys.foldl min (ys.headD 0)
  let ymax := ys.foldl max (ys.headD 0)
  [⟨xmin, ymin, 0⟩, ⟨xmax, ymin, 0⟩, ⟨xmax, ymax, 0⟩, ⟨xmin, ymax, 0⟩]

/-- Modelled from the spec: `distance_point_point` — Euclidean. -/
noncomputable def distance_point_point (a b : P3 ℝ) : ℝ :=
  Real.sqrt ((b.x - a.x) ^ 2 + (b.y - a.y) ^ 2 + (b.z - a.z) ^ 2)

/-- The helper `super_triangle(coords)` (triangulation.py lines 155-166), with the
source's exact constants `1.73205` and `-1.0000000000001` (the latter
carries the comment "due to numerical issues"). -/
noncomputable def super_triangle (coords : List (P3 ℝ)) : P3 ℝ × P3 ℝ × P3 ℝ :=
  let centpt := centroid_points coords
  let bbpts := bounding_box coords
  let dis0 := distance_point_point (bbpts.getD 0 ⟨0, 0, 0⟩) (bbpts.getD 2 ⟨0, 0, 0⟩)
  let dis := dis0 * 300
  let v1 : P3 ℝ := ⟨0 * dis, 2 * dis, 0⟩
  let v2 : P3 ℝ := ⟨1.73205 * dis, -1.0000000000001 * dis, 0⟩
  let v3 : P3 ℝ := ⟨-1.73205 * dis, -1 * dis, 0⟩
  (add_vectors centpt v1, add_vectors centpt v2, add_vectors centpt v3)

/-- Lines 168-184 of `delaunay_from_points`: empty mesh, super-triangle on
the (already jittered) sites, its vertices at the fresh keys `n`, `n+1`,
`n+2` for `n = len(points)`, and the single bootstrap face. -/
noncomputable def delaunay_setup (points : List (P3 ℝ)) : Mesh ℝ :=
  let st := super_triangle points
  let n := points.length
  let m1 := add_vertex_key (Mesh.empty : Mesh ℝ) n st.1
  let m2 := add_vertex_key m1 (n + 1) st.2.1
  let m3 := add_vertex_key m2 (n + 2) st.2.2
  (add_face m3 none [n, n + 1, n + 2]).1

/-! ### The Delaunay insertion loop (`delaunay_from_points`, lines 186-239) -/

/-- Truthiness of a Python face key or `None` (`if fkey_op:`): both `None`
and the integer key `0` are falsy. -/
def optTruthy : Option Nat → Bool
  | none => false
  | some k => decide (k ≠ 0)

/-- The vertex of a triangle cycle other than `u` and `v`. -/
def thirdVertex (cyc : List Nat) (u v : Nat) : Option Nat :=
  (cyc.filter (fun x => decide (x ≠ u) && decide (x ≠ v))).head?

/-- Modelled from the spec: `trimesh_swap_edge(mesh, u, v)` (§4.2 flip_edge;
not among the sources): deletes the two incident triangles `(u, v, o₁)`,
`(v, u, o₂)` and installs `(u, o₂, o₁)` and `(v, o₁, o₂)`; fails with
`BoundaryFlip` when either side is outside or missing and with `NotTriangle`
when a face is not a triangle. -/
def trimesh_swap_edge (m : Mesh ℚ) (u v : Nat) :
    Except MErr (Mesh ℚ × Nat × Nat) :=
  match lookup2 m.halfedge u v, lookup2 m.halfedge v u with
  | some (some f1), some (some f2) =>
    match dget f1 m.face, dget f2 m.face with
    | some c1, some c2 =>
      if c1.length = 3 ∧ c2.length = 3 then
        match thirdVertex c1 u v, thirdVertex c2 u v with
        | some o1, some o2 =>
          let m1 := delete_face (delete_face m f1) f2
          let p1 := add_face m1 none [u, o2, o1]
          let p2 := add_face p1.1 none [v, o1, o2]
          .ok (p2.1, p1.2, p2.2)
        | _, _ => .error .notTriangle
      else .error .notTriangle
    | _, _ => .error .keyError
  | _, _ => .error .boundaryFlip

/-- Modelled from the spec: `mesh.insert_vertex(fkey, key, xyz,
return_fkeys=True)` (§4.2 insert_vertex_into_face; not among the sources):
adds the vertex, retires face `fkey`, and creates one triangle `(vᵢ, vᵢ₊₁,
key)` per edge of the retired cycle. -/
def insert_vertex (m : Mesh ℚ) (fkey key : Nat) (xyz : P3 ℚ) :
    Except MErr (Mesh ℚ × Nat × List Nat) :=
  match dget fkey m.face with
  | none => .error .keyError
  | some cyc =>
    let m1 := add_vertex_key m key xyz
    let m2 := delete_face m1 fkey
    let r := (cyc.zip (rot 1 cyc)).foldl (fun acc e =>
        let p := add_face acc.1 none [e.1, e.2, key]
        (p.1, acc.2 ++ [p.2])) (m2, ([] : List Nat))
    .ok (r.1, key, r.2)

/-- The point-location scan of lines 193-209: the first face of the dict
whose triangle inclusively contains the site. -/
def locateFaceGo (m : Mesh ℚ) (pt : P3 ℚ) : List Nat → Except MErr (Option Nat)
  | [] => .ok none
  | fkey :: rest =>
    match dget fkey m.face with
    | some [ka, kb, kc] =>
      match dget ka m.vertex, dget kb m.vertex, dget kc m.vertex with
      | some a, some b, some c =>
        if is_point_in_triangle_xy pt [a, b, c] true then .ok (some fkey)
        else locateFaceGo m pt rest
      | _, _, _ => .error .keyError
    | some _ => .error .valueError
    | none => .error .keyError

def locateFace (m : Mesh ℚ) (pt : P3 ℚ) : Except MErr (Option Nat) :=
  locateFaceGo m pt (m.face.map Prod.fst)

/-- One iteration of the Lawson `while newtris:` body (lines 211-239): pop a
triangle, find the face opposite the inserted site across its far edge
(`if fkey_op:` — note Python's falsy `0`), run the circumcircle test — whose
`Degenerate` failure propagates, there is no handler in the source — and
flip if the site is strictly inside. -/
def flipBody (m : Mesh ℚ) (key : Nat) (pt : P3 ℚ) (fkey : Nat) :
    Except MErr (Mesh ℚ × List Nat) :=
  match dget fkey m.face with
  | none => .error .keyError
  | some keys =>
    match (keys.filter (fun x => decide (x ≠ key))).dedup with
    | u :: v :: _ =>
      match lookup2 m.halfedge u v with
      | none => .error .keyError
      | some fkey1 =>
        match (if fkey1 ≠ some fkey then Except.ok fkey1
               else match lookup2 m.halfedge v u with
                    | none => Except.error MErr.keyError
                    | some x => Except.ok x) with
        | .error e => .error e
        | .ok fkey_op =>
          if optTruthy fkey_op then
            match fkey_op with
            | some fop =>
              match dget fop m.face with
              | some [ka, kb, kc] =>
                match dget ka m.vertex, dget kb m.vertex, dget kc m.vertex with
                | some a, some b, some c =>
                  match circle_from_points_xy a b c with
                  | none => .error .degenerate
                  | some circ =>
                    if is_point_in_circle_xy pt circ then
                      match trimesh_swap_edge m u v with
                      | .error e => .error e
                      | .ok (m', nf1, nf2) => .ok (m', [nf1, nf2])
                    else .ok (m, [])
                | _, _, _ => .error .keyError
              | some _ => .error .valueError
              | none => .error .keyError
            | none => .ok (m, [])
          else .ok (m, [])
    | _ => .error .valueError

/-- Python `list.pop()`: the last element and the remainder. -/
def popLast (l : List Nat) : Option (Nat × List Nat) :=
  match l.reverse with
  | [] => none
  | x :: rest => some (x, rest.reverse)

/-- The fuelled `while newtris:` loop. -/
def flipLoop : Nat → Mesh ℚ → Nat → P3 ℚ → List Nat → Except MErr (Mesh ℚ)
  | _, m, _, _, [] => .ok m
  | 0, _, _, _, _ :: _ => .error .fuelOut
  | fuel + 1, m, key, pt, l =>
    match popLast l with
    | none => .ok m
    | some (fkey, rest) =>
      match flipBody m key pt fkey with
      | .error e => .error e
      | .ok (m', pushed) => flipLoop fuel m' key pt (rest ++ pushed)

/-- The site-insertion loop of lines 186-239.  `newtris` is the Python local
of the same name: it is **unbound** (`none`) before the first iteration —
the source's own comment reads `# newtris should be intialised here` — and
referencing it unbound raises `NameError`. -/
def insertSites (fuel : Nat) :
    Mesh ℚ → List (Nat × P3 ℚ) → Option (List Nat) → Except MErr (Mesh ℚ)
  | m, [], _ => .ok m
  | m, (i, pt) :: rest, newtris =>
    match locateFace m pt with
    | .error e => .error e
    | .ok (some fkey) =>
      match insert_vertex m fkey i pt with
      | .error e => .error e
      | .ok (m1, _, tris) =>
        match flipLoop fuel m1 i pt tris with
        | .error e => .error e
        | .ok m2 => insertSites fuel m2 rest (some [])
    | .ok none =>
      match newtris with
      | none => .error .nameError
      | some ts =>
        match flipLoop fuel m i pt ts with
        | .error e => .error e
        | .ok m2 => insertSites fuel m2 rest (some [])

/-! ### The dual mesh and the Voronoi constructor -/

/-- Modelled from the spec: `mesh.vertices_on_boundary()` (not among the
sources) — the vertices with at least one outside half-edge. -/
def vertices_on_boundary (m : Mesh ℚ) : List Nat :=
  (m.vertex.map Prod.fst).filter (fun u =>
    match dget u m.halfedge with
    | none => false
    | some d => d.any (fun pr => pr.2.isNone))

/-- The vertex cyclically preceding `key` in face `fk`'s cycle. -/
def facePredecessor (m : Mesh ℚ) (fk key : Nat) : Option Nat :=
  match dget fk m.face with
  | none => none
  | some cyc => cyc.get? ((pyIndex key cyc + cyc.length - 1) % cyc.length)

/-- Modelled from the spec: the fuelled cyclic walk behind
`mesh.vertex_faces(key, ordered=True)` (§9: traversal around the vertex via
the half-edge directory; well-defined for interior vertices). -/
def vfWalk (m : Mesh ℚ) (key n0 : Nat) : Nat → Nat → List Nat → List Nat
  | 0, _, acc => acc
  | fuel + 1, nbr, acc =>
    match lookup2 m.halfedge key nbr with
    | some (some f) =>
      match facePredecessor m f key with
      | some nxt =>
        if nxt = n0 then acc ++ [f] else vfWalk m key n0 fuel nxt (acc ++ [f])
      | none => acc ++ [f]
    | _ => acc

/-- Modelled from the spec: `mesh.vertex_faces(key, ordered=True)`. -/
def vertex_faces_ordered (m : Mesh ℚ) (key : Nat) : List Nat :=
  match dget key m.halfedge with
  | none => []
  | some [] => []
  | some ((n0, _) :: rest) => vfWalk m key n0 (rest.length + 1) n0 []

/-- The dual construction `mesh_dual(mesh)` (triangulation.py lines 77-101): one dual vertex per
face incident to an interior vertex, initially at the face centroid; one
dual face per interior vertex, listing its ordered incident faces. -/
def mesh_dual (m : Mesh ℚ) : Mesh ℚ :=
  let fkey_centroid := (m.face.map Prod.fst).map (fun fk => (fk, face_centroid m fk))
  let outer := vertices_on_boundary m
  let inner := (m.vertex.map Prod.fst).filter (fun k => decide (k ∉ outer))
  let vf := inner.foldl (fun acc key =>
      let fkeys := vertex_faces_ordered m key
      let verts := fkeys.foldl (fun vs fk =>
          match dget fk vs with
          | some _ => vs
          | none => vs ++ [(fk, (dget fk fkey_centroid).getD ⟨0, 0, 0⟩)]) acc.1
      (verts, acc.2 ++ [(key, fkeys)]))
    (([] : List (Nat × P3 ℚ)), ([] : List (Nat × List Nat)))
  let dual := vf.1.foldl (fun d pr => add_vertex_key d pr.1 pr.2) (Mesh.empty : Mesh ℚ)
  vf.2.foldl (fun d pr => (add_face d (some pr.1) pr.2).1) dual

/-- The three corner coordinates of the (triangular) face `k` of `M`
(`delaunay.face_coordinates(key)` with the loop's 3-way unpacking). -/
def face_coords3 (M : Mesh ℚ) (k : Nat) : Option (P3 ℚ × P3 ℚ × P3 ℚ) :=
  match dget k M.face with
  | some [ka, kb, kc] =>
    match dget ka M.vertex, dget kb M.vertex, dget kc M.vertex with
    | some a, some b, some c => some (a, b, c)
    | _, _, _ => none
  | _ => none

/-- One iteration of the `voronoi_from_delaunay` overwrite loop (lines
465-470): replace the dual vertex's coordinates by the circumcenter of
delaunay face `k`. -/
def voronoiStep (M W : Mesh ℚ) (k : Nat) : Except MErr (Mesh ℚ) :=
  match face_coords3 M k with
  | none => .error .keyError
  | some (a, b, c) =>
    match circle_from_points_xy a b c with
    | none => .error .degenerate
    | some circ => .ok { W with vertex := dinsert k circ.1 W.vertex }

def voronoiFold (M : Mesh ℚ) : List Nat → Mesh ℚ → Except MErr (Mesh ℚ)
  | [], W => .ok W
  | k :: ks, W =>
    match voronoiStep M W k with
    | .error e => .error e
    | .ok W1 => voronoiFold M ks W1

/-- The constructor `voronoi_from_delaunay(delaunay)` (triangulation.py lines 400-472). -/
def voronoi_from_delaunay (M : Mesh ℚ) : Except MErr (Mesh ℚ) :=
  let vor := mesh_dual M
  voronoiFold M (vor.vertex.map Prod.fst) vor

/-- The circumcenter of the triangular face `k` of `M` as returned by
`circle_from_points`, when defined. -/
def faceCircumcenter (M : Mesh ℚ) (k : Nat) : Option (P3 ℚ) :=
  match face_coords3 M k with
  | none => none
  | some (a, b, c) => (circle_from_points_xy a b c).map (fun ci => ci.1)

theorem voronoiFold_sound (M : Mesh ℚ) (ks : List Nat) :
    ∀ (W V : Mesh ℚ), voronoiFold M ks W = .ok V →
      ∀ k p, dget k V.vertex = some p →
        (k ∈ ks ∧ faceCircumcenter M k = some p) ∨
        (k ∉ ks ∧ dget k W.vertex = some p) := by
  induction ks with
  | nil =>
    intro W V h k p hk
    injection h with h
    subst h
    exact Or.inr ⟨by simp, hk⟩
  | cons k0 ks ih =>
    intro W V h k p hk
    unfold voronoiFold at h
    cases hs : voronoiStep M W k0 with
    | error e => rw [hs] at h; cases h
    | ok W1 =>
      rw [hs] at h
      have hnext := ih W1 V h k p hk
      unfold voronoiStep at hs
      cases hf : face_coords3 M k0 with
      | none => rw [hf] at hs; cases hs
      | some abc =>
        obtain ⟨a, b, c⟩ := abc
        rw [hf] at hs
        dsimp only at hs
        cases hc : circle_from_points_xy a b c with
        | none => rw [hc] at hs; cases hs
        | some circ =>
          rw [hc] at hs
          dsimp only at hs
          injection hs with hW1
          rcases hnext with ⟨hks, hcc⟩ | ⟨hnks, hW⟩
          · exact Or.inl ⟨List.mem_cons_of_mem _ hks, hcc⟩
          · by_cases hkk : k = k0
            · subst hkk
              left
              refine ⟨by simp, ?_⟩
              rw [← hW1] at hW
              dsimp only at hW
              rw [dget_dinsert_self] at hW
              injection hW with hp
              unfold faceCircumcenter
              rw [hf]
              dsimp only
              rw [hc, ← hp]
              rfl
            · right
              refine ⟨by simp [hkk, hnks], ?_⟩
              rw [← hW1] at hW
              dsimp only at hW
              rwa [dget_dinsert_ne k k0 _ _ hkk] at hW

/-! ### C9 -/

/-- C9: every vertex of the mesh returned by `voronoi_from_delaunay` carries
exactly the circumcenter that `circle_from_points` computes for the
correspondingly numbered face of the Delaunay mesh. -/
theorem C9_voronoi_vertices_are_circumcenters (M V : Mesh ℚ) (k : Nat) (p : P3 ℚ)
    (hok : voronoi_from_delaunay M = .ok V)
    (hk : dget k V.vertex = some p) :
    faceCircumcenter M k = some p := by
  unfold voronoi_from_delaunay at hok
  dsimp only at hok
  rcases voronoiFold_sound M ((mesh_dual M).vertex.map Prod.fst) (mesh_dual M) V hok k p hk
    with ⟨-, hcc⟩ | ⟨hnks, hW⟩
  · exact hcc
  · exact absurd (mem_keys_of_dget k _ p hW) hnks

/-- A concrete Delaunay mesh for the C9 witness: a square fan of four
triangles around the interior vertex 4. -/
def C9delaunay : Mesh ℚ :=
  ⟨[(0, ⟨0, 0, 0⟩), (1, ⟨2, 0, 0⟩), (2, ⟨2, 2, 0⟩), (3, ⟨0, 2, 0⟩), (4, ⟨1, 1, 0⟩)],
   [(0, [0, 1, 4]), (1, [1, 2, 4]), (2, [2, 3, 4]), (3, [3, 0, 4])],
   [(0, [(1, some 0), (4, some 3), (3, none)]),
    (1, [(4, some 0), (2, some 1), (0, none)]),
    (2, [(4, some 1), (3, some 2), (1, none)]),
    (3, [(4, some 2), (0, some 3), (2, none)]),
    (4, [(0, some 0), (1, some 1), (2, some 2), (3, some 3)])],
   5, 4⟩

/-- The value `voronoi_from_delaunay` computes on `C9delaunay`: four dual
vertices, one per face, already moved to the circumcenters. -/
def C9voronoi : Mesh ℚ :=
  ⟨[(0, ⟨1, 0, 0⟩), (1, ⟨2, 1, 0⟩), (2, ⟨1, 2, 0⟩), (3, ⟨0, 1, 0⟩)],
   [(4, [0, 1, 2, 3])],
   [(0, [(1, some 4), (3, none)]),
    (1, [(0, none), (2, some 4)]),
    (2, [(1, none), (3, some 4)]),
    (3, [(2, none), (0, some 4)])],
   4, 5⟩

/-- Witness for C9: on the square fan, dual vertex 0 sits at `(1, 0, 0)`,
the circumcenter of Delaunay face 0 (corners `(0,0)`, `(2,0)`, `(1,1)`). -/
theorem C9_witness : faceCircumcenter C9delaunay 0 = some ⟨1, 0, 0⟩ :=
  C9_voronoi_vertices_are_circumcenters C9delaunay C9voronoi 0 ⟨1, 0, 0⟩
    (by
      norm_num [voronoi_from_delaunay, mesh_dual, vertices_on_boundary,
        vertex_faces_ordered, vfWalk, facePredecessor, face_centroid,
        centroid_points, voronoiFold, voronoiStep, face_coords3,
        circle_from_points_xy, dget, lookup2, pyIndex, add_vertex_key, heEnsure,
        add_face, hset, dinsert, rot, C9delaunay, C9voronoi, Mesh.empty])
    (by norm_num [dget, C9voronoi])

/-! ### Boundary and hole clipping (`delaunay_from_points`, lines 245-258) -/

/-- One clipping pass: visit the snapshot `ks` of face keys and delete every
face whose centroid satisfies the deletion predicate `q`. -/
def clipPass (q : P3 ℚ → Bool) (m : Mesh ℚ) (ks : List Nat) : Mesh ℚ :=
  ks.foldl (fun mm fk => if q (face_centroid mm fk) then delete_face mm fk else mm) m

/-- Lines 246-250: delete the faces whose centroid is not inside the
boundary polygon. -/
def clipBoundary (m : Mesh ℚ) (b : List (P3 ℚ)) : Mesh ℚ :=
  clipPass (fun cnt => !(is_point_in_polygon_xy cnt b)) m (m.face.map Prod.fst)

/-- Lines 252-258: for each hole polygon, delete the faces whose centroid is
inside it. -/
def clipHoles (m : Mesh ℚ) (hs : List (List (P3 ℚ))) : Mesh ℚ :=
  hs.foldl (fun mm poly =>
    clipPass (fun cnt => is_point_in_polygon_xy cnt poly) mm (mm.face.map Prod.fst)) m

/-- The guard `if boundary:` — Python truthiness: `None` and the empty list both skip
the boundary-clipping phase. -/
def boundaryStage (m : Mesh ℚ) : Option (List (P3 ℚ)) → Mesh ℚ
  | some b => if b.isEmpty then m else clipBoundary m b
  | none => m

/-- The guard `if holes:` — same truthiness for the hole-clipping phase. -/
def holesStage (m : Mesh ℚ) : Option (List (List (P3 ℚ))) → Mesh ℚ
  | some hs => if hs.isEmpty then m else clipHoles m hs
  | none => m

/-- The final clipping phase of `delaunay_from_points` (lines 245-258),
applied to the mesh as it stands after super-triangle cleanup. -/
def delaunay_clip (m : Mesh ℚ) (boundary : Option (List (P3 ℚ)))
    (holes : Option (List (List (P3 ℚ)))) : Mesh ℚ :=
  holesStage (boundaryStage m boundary) holes

theorem face_centroid_congr (m1 m2 : Mesh ℚ) (k : Nat)
    (hf : dget k m1.face = dget k m2.face) (hv : m1.vertex = m2.vertex) :
    face_centroid m1 k = face_centroid m2 k := by
  unfold face_centroid
  rw [hf, hv]

theorem clipPass_sound (q : P3 ℚ → Bool) (ks : List Nat) (m : Mesh ℚ)
    (k : Nat) (c : List Nat) (h : dget k (clipPass q m ks).face = some c) :
    dget k m.face = some c ∧ (clipPass q m ks).vertex = m.vertex ∧
      (k ∈ ks → q (face_centroid m k) = false) := by
  induction ks generalizing m with
  | nil =>
    refine ⟨h, rfl, ?_⟩
    intro hk
    cases hk
  | cons fk ks ih =>
    have hstep : clipPass q m (fk :: ks) =
        clipPass q (if q (face_centroid m fk) then delete_face m fk else m) ks := rfl
    rw [hstep] at h
    obtain ⟨h1, hv1, himp⟩ := ih _ h
    have hface : dget k m.face = some c := by
      by_cases hq : q (face_centroid m fk) = true
      · rw [if_pos hq, dget_delete_face] at h1
        by_cases hkfk : k = fk
        · rw [if_pos hkfk] at h1; cases h1
        · rwa [if_neg hkfk] at h1
      · rwa [if_neg hq] at h1
    have hvtx : (clipPass q (if q (face_centroid m fk) then delete_face m fk else m) ks).vertex
        = m.vertex := by
      rw [hv1]
      by_cases hq : q (face_centroid m fk) = true
      · rw [if_pos hq, delete_face_vertex]
      · rw [if_neg hq]
    refine ⟨hface, by rw [hstep]; exact hvtx, ?_⟩
    intro hk
    rcases List.mem_cons.mp hk with rfl | hk2
    · by_cases hq : q (face_centroid m k) = true
      · rw [if_pos hq] at h1
        rw [dget_delete_face, if_pos rfl] at h1
        cases h1
      · simpa using hq
    · have hcongr : face_centroid
          (if q (face_centroid m fk) then delete_face m fk else m) k =
          face_centroid m k := by
        refine face_centroid_congr _ _ k ?_ ?_
        · by_cases hq : q (face_centroid m fk) = true
          · rw [if_pos hq, dget_delete_face]
            by_cases hkfk : k = fk
            · subst hkfk
              rw [if_pos hq, dget_delete_face, if_pos rfl] at h1
              cases h1
            · rw [if_neg hkfk]
          · rw [if_neg hq]
        · by_cases hq : q (face_centroid m fk) = true
          · rw [if_pos hq, delete_face_vertex]
          · rw [if_neg hq]
      rw [← hcongr]
      exact himp hk2

theorem clipHoles_sound (hs : List (List (P3 ℚ))) (m : Mesh ℚ) (k : Nat)
    (c : List Nat) (h : dget k (clipHoles m hs).face = some c) :
    dget k m.face = some c ∧ (clipHoles m hs).vertex = m.vertex ∧
      ∀ poly ∈ hs, is_point_in_polygon_xy (face_centroid m k) poly = false := by
  induction hs generalizing m with
  | nil => exact ⟨h, rfl, by simp⟩
  | cons poly hs ih =>
    have hstep : clipHoles m (poly :: hs) =
        clipHoles (clipPass (fun cnt => is_point_in_polygon_xy cnt poly) m
          (m.face.map Prod.fst)) hs := rfl
    rw [hstep] at h
    obtain ⟨h1, hv1, hrest⟩ := ih _ h
    obtain ⟨h0, hv0, himp⟩ := clipPass_sound _ _ _ _ _ h1
    have hk : k ∈ m.face.map Prod.fst := mem_keys_of_dget k m.face c h0
    have hcongr : face_centroid (clipPass (fun cnt => is_point_in_polygon_xy cnt poly) m
        (m.face.map Prod.fst)) k = face_centroid m k :=
      face_centroid_congr _ _ k (by rw [h1, h0]) hv0
    refine ⟨h0, by rw [hstep, hv1, hv0], ?_⟩
    intro p hp
    rcases List.mem_cons.mp hp with rfl | hp2
    · exact himp hk
    · rw [← hcongr]
      exact hrest p hp2

theorem boundaryStage_sound (bo : Option (List (P3 ℚ))) (m : Mesh ℚ) (k : Nat)
    (c : List Nat) (h : dget k (boundaryStage m bo).face = some c) :
    dget k m.face = some c ∧ (boundaryStage m bo).vertex = m.vertex ∧
      ∀ b, bo = some b → b ≠ [] →
        is_point_in_polygon_xy (face_centroid m k) b = true := by
  cases bo with
  | none =>
    refine ⟨h, rfl, ?_⟩
    intro b hb
    cases hb
  | some b =>
    by_cases he : b.isEmpty
    · unfold boundaryStage at h ⊢
      dsimp only at h ⊢
      rw [if_pos he] at h ⊢
      refine ⟨h, rfl, ?_⟩
      intro b' hb' hne
      injection hb' with hb2
      subst hb2
      exact absurd (List.isEmpty_iff.mp he) hne
    · unfold boundaryStage at h ⊢
      dsimp only at h ⊢
      rw [if_neg he] at h ⊢
      obtain ⟨h0, hv0, himp⟩ := clipPass_sound _ _ _ _ _ h
      have hk : k ∈ m.face.map Prod.fst := mem_keys_of_dget k m.face c h0
      refine ⟨h0, hv0, ?_⟩
      intro b' hb' hne
      injection hb' with hb2
      subst hb2
      have := himp hk
      simpa using this

theorem holesStage_sound (ho : Option (List (List (P3 ℚ)))) (m : Mesh ℚ) (k : Nat)
    (c : List Nat) (h : dget k (holesStage m ho).face = some c) :
    dget k m.face = some c ∧ (holesStage m ho).vertex = m.vertex ∧
      ∀ hs, ho = some hs → ∀ poly ∈ hs,
        is_point_in_polygon_xy (face_centroid m k) poly = false := by
  cases ho with
  | none =>
    refine ⟨h, rfl, ?_⟩
    intro hs hhs
    cases hhs
  | some hs =>
    by_cases he : hs.isEmpty
    · unfold holesStage at h ⊢
      dsimp only at h ⊢
      rw [if_pos he] at h ⊢
      refine ⟨h, rfl, ?_⟩
      intro hs' hhs'
      injection hhs' with hhs2
      subst hhs2
      rw [List.isEmpty_iff.mp he]
      simp
    · unfold holesStage at h ⊢
      dsimp only at h ⊢
      rw [if_neg he] at h ⊢
      obtain ⟨h0, hv0, himp⟩ := clipHoles_sound _ _ _ _ h
      refine ⟨h0, hv0, ?_⟩
      intro hs' hhs'
      injection hhs' with hhs2
      subst hhs2
      exact himp

/-! ### C8 -/

/-- C8: every face that survives the boundary/hole clipping phase of
`delaunay_from_points` has its centroid inside the supplied (truthy)
boundary polygon and outside every supplied hole polygon. -/
theorem C8_clip_centroids (m : Mesh ℚ) (boundary : Option (List (P3 ℚ)))
    (holes : Option (List (List (P3 ℚ)))) (fk : Nat) (cyc : List Nat)
    (h : dget fk (delaunay_clip m boundary holes).face = some cyc) :
    (∀ b, boundary = some b → b ≠ [] →
       is_point_in_polygon_xy
         (face_centroid (delaunay_clip m boundary holes) fk) b = true) ∧
    (∀ hs, holes = some hs → ∀ poly ∈ hs,
       is_point_in_polygon_xy
         (face_centroid (delaunay_clip m boundary holes) fk) poly = false) := by
  unfold delaunay_clip at h ⊢
  obtain ⟨h1, hv1, hholes⟩ := holesStage_sound holes _ fk cyc h
  obtain ⟨h0, hv0, hbdry⟩ := boundaryStage_sound boundary m fk cyc h1
  have hc1 : face_centroid (holesStage (boundaryStage m boundary) holes) fk =
      face_centroid (boundaryStage m boundary) fk :=
    face_centroid_congr _ _ fk (by rw [h, h1]) hv1
  have hc0 : face_centroid (boundaryStage m boundary) fk = face_centroid m fk :=
    face_centroid_congr _ _ fk (by rw [h1, h0]) hv0
  constructor
  · intro b hb hne
    rw [hc1, hc0]
    exact hbdry b hb hne
  · intro hs hhs poly hp
    rw [hc1]
    exact hholes hs hhs poly hp

/-! ### Reduction lemmas for the split operations -/

theorem add_face_none_key (m : Mesh α) (cyc : List Nat) :
    (add_face m none cyc).2 = m.nextF := rfl

theorem add_face_none_face (m : Mesh α) (cyc : List Nat) :
    (add_face m none cyc).1.face = dinsert m.nextF cyc m.face := rfl

theorem add_face_none_nextF (m : Mesh α) (cyc : List Nat) :
    (add_face m none cyc).1.nextF = max m.nextF (m.nextF + 1) := rfl

theorem add_face_none_vertex (m : Mesh α) (cyc : List Nat) :
    (add_face m none cyc).1.vertex = m.vertex := rfl

/-- The successful path of `mesh_split_face`, with the two slice computations
of lines 200-205 exposed. -/
theorem mesh_split_face_ok (m : Mesh α) (fkey u v : Nat) (C F G : List Nat)
    (hC : dget fkey m.face = some C) (hu : u ∈ C) (hv : v ∈ C)
    (hij : pyIndex u C + 1 ≠ pyIndex v C)
    (hF : F = if pyIndex u C < pyIndex v C
      then (C.drop (pyIndex u C)).take (pyIndex v C + 1 - pyIndex u C)
      else C.drop (pyIndex u C) ++ C.take (pyIndex v C + 1))
    (hG : G = if pyIndex u C < pyIndex v C
      then C.drop (pyIndex v C) ++ C.take (pyIndex u C + 1)
      else (C.drop (pyIndex v C)).take (pyIndex u C + 1 - pyIndex v C)) :
    mesh_split_face m fkey u v = .ok
      ({ (add_face (add_face m none F).1 none G).1 with
         face := ddel fkey (add_face (add_face m none F).1 none G).1.face },
       (add_face m none F).2, (add_face (add_face m none F).1 none G).2) := by
  subst hF hG
  simp only [mesh_split_face, hC]
  rw [if_neg (by simp [hu, hv]), if_neg hij]

/-- The successful path of `mesh_split_face`, reduced to its observable
parts: the returned keys, the two stored cycles, the deletion of the original
face, and the untouched remainder of the face dict. -/
theorem mesh_split_face_parts (m : Mesh α) (fkey u v : Nat) (C F G : List Nat)
    (hC : dget fkey m.face = some C) (hu : u ∈ C) (hv : v ∈ C)
    (hij : pyIndex u C + 1 ≠ pyIndex v C)
    (hF : F = if pyIndex u C < pyIndex v C
      then (C.drop (pyIndex u C)).take (pyIndex v C + 1 - pyIndex u C)
      else C.drop (pyIndex u C) ++ C.take (pyIndex v C + 1))
    (hG : G = if pyIndex u C < pyIndex v C
      then C.drop (pyIndex v C) ++ C.take (pyIndex u C + 1)
      else (C.drop (pyIndex v C)).take (pyIndex u C + 1 - pyIndex v C))
    (hfk : fkey < m.nextF) :
    ∃ m', mesh_split_face m fkey u v = .ok (m', m.nextF, m.nextF + 1) ∧
      dget m.nextF m'.face = some F ∧
      dget (m.nextF + 1) m'.face = some G ∧
      dget fkey m'.face = none ∧
      ∀ k, k ≠ fkey → k ≠ m.nextF → k ≠ m.nextF + 1 →
        dget k m'.face = dget k m.face := by
  have hred := mesh_split_face_ok m fkey u v C F G hC hu hv hij hF hG
  have hmax : max m.nextF (m.nextF + 1) = m.nextF + 1 :=
    Nat.max_eq_right (Nat.le_succ _)
  rw [add_face_none_key, add_face_none_key, add_face_none_nextF, hmax] at hred
  have hface : (add_face (add_face m none F).1 none G).1.face =
      dinsert (m.nextF + 1) G (dinsert m.nextF F m.face) := by
    rw [show (add_face (add_face m none F).1 none G).1.face =
        dinsert (max m.nextF (m.nextF + 1)) G (dinsert m.nextF F m.face) from rfl, hmax]
  rw [hface] at hred
  refine ⟨_, hred, ?_, ?_, ?_, ?_⟩
  · show dget m.nextF (ddel fkey (dinsert (m.nextF + 1) G (dinsert m.nextF F m.face))) = some F
    rw [dget_ddel_ne _ _ _ (by omega), dget_dinsert_ne _ _ _ _ (by omega),
      dget_dinsert_self]
  · show dget (m.nextF + 1) (ddel fkey (dinsert (m.nextF + 1) G (dinsert m.nextF F m.face))) =
      some G
    rw [dget_ddel_ne _ _ _ (by omega), dget_dinsert_self]
  · show dget fkey (ddel fkey (dinsert (m.nextF + 1) G (dinsert m.nextF F m.face))) = none
    rw [dget_ddel_self]
  · intro k hk1 hk2 hk3
    show dget k (ddel fkey (dinsert (m.nextF + 1) G (dinsert m.nextF F m.face))) =
      dget k m.face
    rw [dget_ddel_ne _ _ _ hk1, dget_dinsert_ne _ _ _ _ hk3, dget_dinsert_ne _ _ _ _ hk2]

/-! ### Arc computations over a split cycle `X ++ a :: (M ++ b :: T)` -/

theorem mem_split_first (a : Nat) (l : List Nat) (h : a ∈ l) :
    ∃ s t, l = s ++ a :: t ∧ a ∉ s := by
  induction l with
  | nil => cases h
  | cons c l ih =>
    by_cases hac : a = c
    · exact ⟨[], l, by simp [hac], by simp⟩
    · rcases List.mem_cons.mp h with h1 | h1
      · exact absurd h1 hac
      · obtain ⟨s, t, rfl, hs⟩ := ih h1
        exact ⟨c :: s, t, rfl, by simp [hac, hs]⟩

theorem nodup_shape (a b : Nat) (X M T : List Nat)
    (h : (X ++ a :: (M ++ b :: T)).Nodup) :
    a ∉ X ∧ a ∉ M ∧ a ∉ T ∧ b ∉ X ∧ b ∉ M ∧ b ∉ T ∧ a ≠ b := by
  have hdisj := List.disjoint_of_nodup_append h
  have hR : (a :: (M ++ b :: T)).Nodup := h.of_append_right
  have haR : a ∉ M ++ b :: T := (List.nodup_cons.mp hR).1
  have hMT : (M ++ b :: T).Nodup := (List.nodup_cons.mp hR).2
  have hbM : b ∉ M := by
    intro hm
    exact (List.disjoint_of_nodup_append hMT) hm (by simp)
  have hbT : b ∉ T := (List.nodup_cons.mp hMT.of_append_right).1
  refine ⟨?_, ?_, ?_, ?_, hbM, hbT, ?_⟩
  · intro hx; exact hdisj hx (by simp)
  · intro hm; exact haR (by simp [hm])
  · intro ht; exact haR (by simp [ht])
  · intro hx; exact hdisj hx (by simp)
  · intro hab; exact haR (by simp [hab])

theorem get?_append_len (A l : List α) (k : Nat) :
    (A ++ l).get? (A.length + k) = l.get? k := by
  induction A with
  | nil => simp
  | cons c A ih =>
    have h1 : (c :: A).length + k = (A.length + k) + 1 := by
      simp only [List.length_cons]; omega
    rw [List.cons_append, h1]
    simpa using ih

theorem shape_pyIndex_fst (a b : Nat) (X M T : List Nat) (haX : a ∉ X) :
    pyIndex a (X ++ a :: (M ++ b :: T)) = X.length :=
  pyIndex_first a X _ haX

theorem shape_pyIndex_snd (a b : Nat) (X M T : List Nat)
    (hbX : b ∉ X) (hbM : b ∉ M) (hba : b ≠ a) :
    pyIndex b (X ++ a :: (M ++ b :: T)) = X.length + (M.length + 1) := by
  rw [pyIndex_append b X _ hbX]
  have h2 : (a :: (M ++ b :: T) : List Nat) = (a :: M) ++ b :: T := by simp
  rw [h2, pyIndex_first b (a :: M) T (by simp [hba, hbM])]
  simp

theorem shape_drop_fst (a b : Nat) (X M T : List Nat) :
    (X ++ a :: (M ++ b :: T)).drop X.length = a :: (M ++ b :: T) :=
  List.drop_left X _

theorem shape_drop_snd (a b : Nat) (X M T : List Nat) :
    (X ++ a :: (M ++ b :: T)).drop (X.length + (M.length + 1)) = b :: T := by
  rw [drop_append_len X _ (M.length + 1), List.drop_succ_cons]
  exact List.drop_left M _

theorem shape_take_fst (a b : Nat) (X M T : List Nat) :
    (X ++ a :: (M ++ b :: T)).take (X.length + 1) = X ++ [a] := by
  rw [take_append_len X _ 1]
  simp

theorem shape_take_snd (a b : Nat) (X M T : List Nat) :
    (X ++ a :: (M ++ b :: T)).take (X.length + (M.length + 1)) = X ++ a :: M := by
  rw [take_append_len X _ (M.length + 1), List.take_succ_cons, List.take_left M _]

theorem shape_mid_take (a b : α) (M T L : List α) :
    ((a :: (M ++ b :: T)) ++ L).take (M.length + 1 + 1) = a :: (M ++ [b]) := by
  have h1 : ((a :: (M ++ b :: T)) ++ L : List α) = a :: ((M ++ b :: T) ++ L) := by simp
  rw [h1, List.take_succ_cons]
  have h3 : ((M ++ b :: T) ++ L : List α) = M ++ (b :: (T ++ L)) := by simp
  rw [h3, take_append_len M _ 1]
  simp

/-- The arc of `X ++ a :: (M ++ b :: T)` from `a` forward to `b`. -/
theorem arcFromTo_fwd (a b : Nat) (X M T : List Nat)
    (haX : a ∉ X) ( _hbX : b ∉ X) (hbM : b ∉ M) (hba : b ≠ a) :
    arcFromTo (X ++ a :: (M ++ b :: T)) a b = a :: (M ++ [b]) := by
  unfold arcFromTo
  rw [shape_pyIndex_fst a b X M T haX, shape_drop_fst, List.take_left X _]
  show ((a :: (M ++ b :: T)) ++ X).take
      (pyIndex b ((a :: (M ++ b :: T)) ++ X) + 1) = a :: (M ++ [b])
  have hr : ((a :: (M ++ b :: T)) ++ X : List Nat) = (a :: M) ++ (b :: (T ++ X)) := by simp
  rw [hr, pyIndex_first b (a :: M) _ (by simp [hba, hbM]), ← hr]
  have h2 : (a :: M).length + 1 = M.length + 1 + 1 := by simp
  rw [h2, shape_mid_take]

/-- The arc of `X ++ a :: (M ++ b :: T)` from `b` forward (wrapping) to `a`. -/
theorem arcFromTo_bwd (a b : Nat) (X M T : List Nat)
    (haX : a ∉ X) (haT : a ∉ T)
    (hbX : b ∉ X) (hbM : b ∉ M) (hba : b ≠ a) :
    arcFromTo (X ++ a :: (M ++ b :: T)) b a = b :: (T ++ (X ++ [a])) := by
  unfold arcFromTo
  rw [shape_pyIndex_snd a b X M T hbX hbM hba, shape_drop_snd, shape_take_snd]
  show ((b :: T) ++ (X ++ a :: M)).take
      (pyIndex a ((b :: T) ++ (X ++ a :: M)) + 1) = b :: (T ++ (X ++ [a]))
  have hr : ((b :: T) ++ (X ++ a :: M) : List Nat) = ((b :: T) ++ X) ++ (a :: M) := by simp
  rw [hr, pyIndex_first a ((b :: T) ++ X) M (by simp [haX, haT, hba.symm]),
    take_append_len ((b :: T) ++ X) (a :: M) 1]
  simp

/-! ### C6 -/

/-- C6: for an interior edge `u–v` (both half-edges map to faces `f1 ≠ f2`)
and `0 < t < 1`, `mesh_split_edge` returns the newly allocated vertex key
`w = m.nextV` placed at the interpolated coordinates, retires the half-edges
`(u→v)` and `(v→u)`, installs `(u→w)`, `(w→v)` mapped to `f1` and `(v→w)`,
`(w→u)` mapped to `f2`, inserts `w` into each incident face's cycle
immediately before the second endpoint of that face's directed edge, and
neither creates nor destroys any face. -/
theorem C6_split_edge_interior (m : Mesh ℚ) (u v f1 f2 : Nat) (t : ℚ)
    (A B C D : List Nat) (pu pv : P3 ℚ)
    (ht0 : 0 < t) (ht1 : t < 1)
    (huv : lookup2 m.halfedge u v = some (some f1))
    (hvu : lookup2 m.halfedge v u = some (some f2))
    (hff : f1 ≠ f2)
    (hc1 : dget f1 m.face = some (A ++ v :: B)) (hvA : v ∉ A)
    (hc2 : dget f2 m.face = some (C ++ u :: D)) (huC : u ∉ C)
    (hpu : dget u m.vertex = some pu) (hpv : dget v m.vertex = some pv)
    (hwu : u < m.nextV) (hwv : v < m.nextV)
    (hfresh : dget m.nextV m.halfedge = none)
    (hvfresh : dget m.nextV m.vertex = none) :
    ∃ m', mesh_split_edge m u v t false = .ok (m', some m.nextV) ∧
      dget m.nextV m.vertex = none ∧
      dget m.nextV m'.vertex =
        some ⟨pu.x + t * (pv.x - pu.x), pu.y + t * (pv.y - pu.y),
              pu.z + t * (pv.z - pu.z)⟩ ∧
      lookup2 m'.halfedge u m.nextV = some (some f1) ∧
      lookup2 m'.halfedge m.nextV v = some (some f1) ∧
      lookup2 m'.halfedge u v = none ∧
      lookup2 m'.halfedge v m.nextV = some (some f2) ∧
      lookup2 m'.halfedge m.nextV u = some (some f2) ∧
      lookup2 m'.halfedge v u = none ∧
      dget f1 m'.face = some (A ++ m.nextV :: v :: B) ∧
      dget f2 m'.face = some (C ++ m.nextV :: u :: D) ∧
      m'.face.map Prod.fst = m.face.map Prod.fst := by
  have hune : u ≠ v := by
    intro h
    subst h
    rw [huv] at hvu
    simp only [Option.some.injEq] at hvu
    exact hff hvu
  obtain ⟨du, hdu, -⟩ := lookup2_some_outer m.halfedge u v _ huv
  obtain ⟨dv, hdv, -⟩ := lookup2_some_outer m.halfedge v u _ hvu
  have he0eq : (add_vertex m (edge_point pu pv t)).1.halfedge =
      m.halfedge ++ [(m.nextV, [])] := by
    rw [add_vertex_halfedge, heEnsure_none _ _ hfresh]
  have hdu0 : dget u (m.halfedge ++ [(m.nextV, [])]) = some du :=
    dget_append_left u _ _ du hdu
  have hdv0 : dget v (m.halfedge ++ [(m.nextV, [])]) = some dv :=
    dget_append_left v _ _ dv hdv
  have hkey : mesh_split_edge m u v t false = .ok
      ({ (add_vertex m (edge_point pu pv t)).1 with
          halfedge := hdel v u (hset m.nextV u (some f2) (hset v m.nextV (some f2)
            (hdel u v (hset m.nextV v (some f1) (hset u m.nextV (some f1)
              (add_vertex m (edge_point pu pv t)).1.halfedge))))),
          face := dinsert f2 (C ++ m.nextV :: u :: D)
            (dinsert f1 (A ++ m.nextV :: v :: B) m.face) },
        some m.nextV) := by
    unfold mesh_split_edge
    rw [if_neg (not_le.mpr ht0), if_neg (not_le.mpr ht1)]
    rw [huv, hvu]
    dsimp only
    rw [if_neg (by simp)]
    rw [hpu, hpv]
    dsimp only
    rw [faceInsertBefore_some _ f1 m.nextV v A B
      (by rw [add_vertex_face]; exact hc1) hvA]
    dsimp only
    rw [faceInsertBefore_some _ f2 m.nextV u C D
      (by rw [dget_dinsert_ne f2 f1 _ _ (Ne.symm hff), add_vertex_face]; exact hc2) huC]
    dsimp only
    rw [add_vertex_face]
  refine ⟨_, hkey, hvfresh, ?_, ?_, ?_, ?_, ?_, ?_, ?_, ?_, ?_, ?_⟩
  · dsimp only
    rw [add_vertex_vertex, dget_dinsert_self]
    rfl
  · dsimp only
    rw [lookup2_hdel_outer_ne _ v u u m.nextV hune,
      lookup2_hset_outer_ne _ m.nextV u u m.nextV _ (by omega),
      lookup2_hset_outer_ne _ v m.nextV u m.nextV _ hune,
      lookup2_hdel_inner_ne _ u v m.nextV (by omega),
      lookup2_hset_outer_ne _ m.nextV v u m.nextV _ (by omega),
      lookup2_hset_self]
  · dsimp only
    rw [lookup2_hdel_outer_ne _ v u m.nextV v (by omega),
      lookup2_hset_inner_ne _ m.nextV u v _ (Ne.symm hune),
      lookup2_hset_outer_ne _ v m.nextV m.nextV v _ (by omega),
      lookup2_hdel_outer_ne _ u v m.nextV v (by omega),
      lookup2_hset_self]
  · dsimp only
    rw [lookup2_hdel_outer_ne _ v u u v hune,
      lookup2_hset_outer_ne _ m.nextV u u v _ (by omega),
      lookup2_hset_outer_ne _ v m.nextV u v _ hune]
    refine lookup2_hdel_self _ u v (dinsert m.nextV (some f1) du) ?_
    rw [dget_hset_outer_ne _ m.nextV v u _ (by omega)]
    rw [he0eq]
    exact dget_hset_self _ u m.nextV (some f1) du hdu0
  · dsimp only
    rw [lookup2_hdel_inner_ne _ v u m.nextV (by omega),
      lookup2_hset_outer_ne _ m.nextV u v m.nextV _ (by omega),
      lookup2_hset_self]
  · dsimp only
    rw [lookup2_hdel_outer_ne _ v u m.nextV u (by omega),
      lookup2_hset_self]
  · dsimp only
    refine lookup2_hdel_self _ v u (dinsert m.nextV (some f2) dv) ?_
    rw [dget_hset_outer_ne _ m.nextV u v _ (by omega)]
    refine dget_hset_self _ v m.nextV (some f2) dv ?_
    rw [dget_hdel_outer_ne _ u v v (Ne.symm hune),
      dget_hset_outer_ne _ m.nextV v v _ (by omega),
      dget_hset_outer_ne _ u m.nextV v _ (Ne.symm hune),
      he0eq]
    exact hdv0
  · dsimp only
    rw [dget_dinsert_ne f1 f2 _ _ hff, dget_dinsert_self]
  · dsimp only
    rw [dget_dinsert_self]
  · dsimp only
    have hk1 : f1 ∈ m.face.map Prod.fst := mem_keys_of_dget f1 m.face _ hc1
    have hkeys1 : (dinsert f1 (A ++ m.nextV :: v :: B) m.face).map Prod.fst =
        m.face.map Prod.fst := keys_dinsert_of_mem f1 _ m.face hk1
    have hk2 : f2 ∈ (dinsert f1 (A ++ m.nextV :: v :: B) m.face).map Prod.fst := by
      rw [hkeys1]
      exact mem_keys_of_dget f2 m.face _ hc2
    rw [keys_dinsert_of_mem f2 _ _ hk2, hkeys1]

/-- Witness for C6: splitting the interior edge `0–1` of a two-triangle mesh
at `t = 1/2` allocates vertex 4 at `(1, 0, 0)` and rewires the two incident
triangles `[0, 1, 2]` and `[1, 0, 3]`. -/
theorem C6_witness :
    ∃ m', mesh_split_edge
        (⟨[(0, ⟨0, 0, 0⟩), (1, ⟨2, 0, 0⟩), (2, ⟨1, 1, 0⟩), (3, ⟨1, -1, 0⟩)],
          [(10, [0, 1, 2]), (11, [1, 0, 3])],
          [(0, [(1, some 10)]), (1, [(0, some 11)])], 4, 12⟩ : Mesh ℚ)
        0 1 (1/2) false = .ok (m', some 4) ∧
      dget 4 ([(0, (⟨0, 0, 0⟩ : P3 ℚ)), (1, ⟨2, 0, 0⟩), (2, ⟨1, 1, 0⟩),
        (3, ⟨1, -1, 0⟩)]) = none ∧
      dget 4 m'.vertex = some ⟨0 + 1/2 * (2 - 0), 0 + 1/2 * (0 - 0), 0 + 1/2 * (0 - 0)⟩ ∧
      lookup2 m'.halfedge 0 4 = some (some 10) ∧
      lookup2 m'.halfedge 4 1 = some (some 10) ∧
      lookup2 m'.halfedge 0 1 = none ∧
      lookup2 m'.halfedge 1 4 = some (some 11) ∧
      lookup2 m'.halfedge 4 0 = some (some 11) ∧
      lookup2 m'.halfedge 1 0 = none ∧
      dget 10 m'.face = some ([0] ++ 4 :: 1 :: [2]) ∧
      dget 11 m'.face = some ([1] ++ 4 :: 0 :: [3]) ∧
      m'.face.map Prod.fst =
        ([(10, [0, 1, 2]), (11, [1, 0, 3])] : List (Nat × List Nat)).map Prod.fst :=
  C6_split_edge_interior
    (⟨[(0, ⟨0, 0, 0⟩), (1, ⟨2, 0, 0⟩), (2, ⟨1, 1, 0⟩), (3, ⟨1, -1, 0⟩)],
      [(10, [0, 1, 2]), (11, [1, 0, 3])],
      [(0, [(1, some 10)]), (1, [(0, some 11)])], 4, 12⟩ : Mesh ℚ)
    0 1 10 11 (1/2) [0] [2] [1] [3] ⟨0, 0, 0⟩ ⟨2, 0, 0⟩
    (by norm_num) (by norm_num) (by decide) (by decide) (by decide) (by decide)
    (by decide) (by decide) (by decide) (by decide) (by decide) (by decide)
    (by decide) (by decide) (by decide)

/-! ### C7 -/

/-- C7: for a face `fkey` with duplicate-free cycle `C` and distinct,
non-cyclically-adjacent vertices `u, v` on `C`, `mesh_split_face` deletes
face `fkey`, creates exactly two new faces (at the two fresh keys it
returns, in order) whose cycles are the arc of `C` from `u` to `v`
inclusive and the arc from `v` to `u` inclusive, both traversed in the sense
of `C`, and leaves every other face untouched. -/
theorem C7_split_face_two_arcs (m : Mesh α) (fkey u v : Nat) (C : List Nat)
    (hC : dget fkey m.face = some C) (hnd : C.Nodup)
    (hu : u ∈ C) (hv : v ∈ C) (hne : u ≠ v)
    (hadj : ¬ cyclicAdj C u v)
    (hkeys : ∀ k x, dget k m.face = some x → k < m.nextF) :
    ∃ m', mesh_split_face m fkey u v = .ok (m', m.nextF, m.nextF + 1) ∧
      dget m.nextF m'.face = some (arcFromTo C u v) ∧
      dget (m.nextF + 1) m'.face = some (arcFromTo C v u) ∧
      dget m.nextF m.face = none ∧
      dget (m.nextF + 1) m.face = none ∧
      dget fkey m'.face = none ∧
      ∀ k, k ≠ fkey → k ≠ m.nextF → k ≠ m.nextF + 1 →
        dget k m'.face = dget k m.face := by
  have hfk : fkey < m.nextF := hkeys fkey C hC
  have hfr1 : dget m.nextF m.face = none := by
    cases h : dget m.nextF m.face with
    | none => rfl
    | some x => exact absurd (hkeys _ _ h) (lt_irrefl _)
  have hfr2 : dget (m.nextF + 1) m.face = none := by
    cases h : dget (m.nextF + 1) m.face with
    | none => rfl
    | some x =>
      have := hkeys _ _ h
      omega
  obtain ⟨X, R, rfl, huX0⟩ := mem_split_first u C hu
  rcases List.mem_append.mp hv with hvX | hvuR
  · -- v lies before u in the list: C = X1 ++ v :: (X2 ++ u :: R)
    obtain ⟨X1, X2, rfl, hvX1⟩ := mem_split_first v X hvX
    have hDC : ((X1 ++ v :: X2) ++ u :: R : List Nat) = X1 ++ v :: (X2 ++ u :: R) := by
      simp
    rw [hDC] at hC hnd hu hv ⊢
    obtain ⟨hvX1', hvX2, hvR, huX1, huX2, huR, hvu⟩ := nodup_shape v u X1 X2 R hnd
    have hi : pyIndex u (X1 ++ v :: (X2 ++ u :: R)) = X1.length + (X2.length + 1) :=
      shape_pyIndex_snd v u X1 X2 R huX1 huX2 hne
    have hj : pyIndex v (X1 ++ v :: (X2 ++ u :: R)) = X1.length :=
      shape_pyIndex_fst v u X1 X2 R hvX1'
    have hij : pyIndex u (X1 ++ v :: (X2 ++ u :: R)) + 1 ≠
        pyIndex v (X1 ++ v :: (X2 ++ u :: R)) := by
      rw [hi, hj]; omega
    have hnlt : ¬ pyIndex u (X1 ++ v :: (X2 ++ u :: R)) <
        pyIndex v (X1 ++ v :: (X2 ++ u :: R)) := by
      rw [hi, hj]; omega
    have harc1 : arcFromTo (X1 ++ v :: (X2 ++ u :: R)) u v =
        u :: (R ++ (X1 ++ [v])) :=
      arcFromTo_bwd v u X1 X2 R hvX1' hvR huX1 huX2 hne
    have harc2 : arcFromTo (X1 ++ v :: (X2 ++ u :: R)) v u =
        v :: (X2 ++ [u]) :=
      arcFromTo_fwd v u X1 X2 R hvX1' huX1 huX2 hne
    have hFeq : arcFromTo (X1 ++ v :: (X2 ++ u :: R)) u v =
        if pyIndex u (X1 ++ v :: (X2 ++ u :: R)) < pyIndex v (X1 ++ v :: (X2 ++ u :: R))
        then ((X1 ++ v :: (X2 ++ u :: R)).drop (pyIndex u (X1 ++ v :: (X2 ++ u :: R)))).take
          (pyIndex v (X1 ++ v :: (X2 ++ u :: R)) + 1 - pyIndex u (X1 ++ v :: (X2 ++ u :: R)))
        else (X1 ++ v :: (X2 ++ u :: R)).drop (pyIndex u (X1 ++ v :: (X2 ++ u :: R))) ++
          (X1 ++ v :: (X2 ++ u :: R)).take (pyIndex v (X1 ++ v :: (X2 ++ u :: R)) + 1) := by
      rw [if_neg hnlt, hi, hj, shape_drop_snd, shape_take_fst, harc1]
      simp
    have hGeq : arcFromTo (X1 ++ v :: (X2 ++ u :: R)) v u =
        if pyIndex u (X1 ++ v :: (X2 ++ u :: R)) < pyIndex v (X1 ++ v :: (X2 ++ u :: R))
        then (X1 ++ v :: (X2 ++ u :: R)).drop (pyIndex v (X1 ++ v :: (X2 ++ u :: R))) ++
          (X1 ++ v :: (X2 ++ u :: R)).take (pyIndex u (X1 ++ v :: (X2 ++ u :: R)) + 1)
        else ((X1 ++ v :: (X2 ++ u :: R)).drop (pyIndex v (X1 ++ v :: (X2 ++ u :: R)))).take
          (pyIndex u (X1 ++ v :: (X2 ++ u :: R)) + 1 - pyIndex v (X1 ++ v :: (X2 ++ u :: R))) := by
      rw [if_neg hnlt, hi, hj, shape_drop_fst, harc2]
      have harith : X1.length + (X2.length + 1) + 1 - X1.length = X2.length + 1 + 1 := by
        omega
      rw [harith]
      have hmt2 : ((v :: (X2 ++ u :: R)) : List Nat).take (X2.length + 1 + 1) =
          v :: (X2 ++ [u]) := by
        have := shape_mid_take v u X2 R ([] : List Nat)
        simpa using this
      exact hmt2.symm
    obtain ⟨m', h1, h2, h3, h4, h5⟩ := mesh_split_face_parts m fkey u v
      (X1 ++ v :: (X2 ++ u :: R)) (arcFromTo (X1 ++ v :: (X2 ++ u :: R)) u v)
      (arcFromTo (X1 ++ v :: (X2 ++ u :: R)) v u) hC hu hv hij hFeq hGeq hfk
    exact ⟨m', h1, h2, h3, hfr1, hfr2, h4, h5⟩
  · rcases List.mem_cons.mp hvuR with h1 | hvR
    · exact absurd h1.symm hne
    · -- v lies after u: C = X ++ u :: (M ++ v :: T)
      obtain ⟨M, T, rfl, hvM0⟩ := mem_split_first v R hvR
      obtain ⟨huX', huM, huT, hvX', hvM', hvT, huv⟩ := nodup_shape u v X M T hnd
      have hi : pyIndex u (X ++ u :: (M ++ v :: T)) = X.length :=
        shape_pyIndex_fst u v X M T huX'
      have hj : pyIndex v (X ++ u :: (M ++ v :: T)) = X.length + (M.length + 1) :=
        shape_pyIndex_snd u v X M T hvX' hvM' (Ne.symm huv)
      have hij : pyIndex u (X ++ u :: (M ++ v :: T)) + 1 ≠
          pyIndex v (X ++ u :: (M ++ v :: T)) := by
        rw [hi, hj]
        intro heq
        have hM0 : M = [] := List.length_eq_zero.mp (by omega)
        subst hM0
        apply hadj
        left
        unfold cyclicNext
        rw [hi]
        have hlen : (X ++ u :: ([] ++ v :: T)).length = X.length + T.length + 2 := by
          simp only [List.length_append, List.length_cons, List.length_nil]
          omega
        rw [hlen, Nat.mod_eq_of_lt (by omega)]
        have hg := get?_append_len X (u :: ([] ++ v :: T)) 1
        simpa using hg
      have hlt : pyIndex u (X ++ u :: (M ++ v :: T)) <
          pyIndex v (X ++ u :: (M ++ v :: T)) := by
        rw [hi, hj]; omega
      have harc1 : arcFromTo (X ++ u :: (M ++ v :: T)) u v = u :: (M ++ [v]) :=
        arcFromTo_fwd u v X M T huX' hvX' hvM' (Ne.symm huv)
      have harc2 : arcFromTo (X ++ u :: (M ++ v :: T)) v u =
          v :: (T ++ (X ++ [u])) :=
        arcFromTo_bwd u v X M T huX' huT hvX' hvM' (Ne.symm huv)
      have hFeq : arcFromTo (X ++ u :: (M ++ v :: T)) u v =
          if pyIndex u (X ++ u :: (M ++ v :: T)) < pyIndex v (X ++ u :: (M ++ v :: T))
          then ((X ++ u :: (M ++ v :: T)).drop (pyIndex u (X ++ u :: (M ++ v :: T)))).take
            (pyIndex v (X ++ u :: (M ++ v :: T)) + 1 - pyIndex u (X ++ u :: (M ++ v :: T)))
          else (X ++ u :: (M ++ v :: T)).drop (pyIndex u (X ++ u :: (M ++ v :: T))) ++
            (X ++ u :: (M ++ v :: T)).take (pyIndex v (X ++ u :: (M ++ v :: T)) + 1) := by
        rw [if_pos hlt, hi, hj, shape_drop_fst, harc1]
        have harith : X.length + (M.length + 1) + 1 - X.length = M.length + 1 + 1 := by
          omega
        rw [harith]
        have hmt2 : ((u :: (M ++ v :: T)) : List Nat).take (M.length + 1 + 1) =
            u :: (M ++ [v]) := by
          have := shape_mid_take u v M T ([] : List Nat)
          simpa using this
        exact hmt2.symm
      have hGeq : arcFromTo (X ++ u :: (M ++ v :: T)) v u =
          if pyIndex u (X ++ u :: (M ++ v :: T)) < pyIndex v (X ++ u :: (M ++ v :: T))
          then (X ++ u :: (M ++ v :: T)).drop (pyIndex v (X ++ u :: (M ++ v :: T))) ++
            (X ++ u :: (M ++ v :: T)).take (pyIndex u (X ++ u :: (M ++ v :: T)) + 1)
          else ((X ++ u :: (M ++ v :: T)).drop (pyIndex v (X ++ u :: (M ++ v :: T)))).take
            (pyIndex u (X ++ u :: (M ++ v :: T)) + 1 - pyIndex v (X ++ u :: (M ++ v :: T))) := by
        rw [if_pos hlt, hi, hj, shape_drop_snd, shape_take_fst, harc2]
        simp
      obtain ⟨m', h1, h2, h3, h4, h5⟩ := mesh_split_face_parts m fkey u v
        (X ++ u :: (M ++ v :: T)) (arcFromTo (X ++ u :: (M ++ v :: T)) u v)
        (arcFromTo (X ++ u :: (M ++ v :: T)) v u) hC hu hv hij hFeq hGeq hfk
      exact ⟨m', h1, h2, h3, hfr1, hfr2, h4, h5⟩

/-! ### C1 -/

/-- C1: the claim fails on the code.  In the face cycle `[0, 1, 2, 3]` the
vertices `u = 0` and `v = 3` are cyclically adjacent (3 wraps around to 0),
yet `mesh_split_face` raises no `Adjacent` error: its neighbour check is only
`i + 1 == j` on list positions.  It returns the new face keys `(1, 2)`,
installs the degenerate two-vertex face `[3, 0]` under key 2 (and a copy
`[0, 1, 2, 3]` of the whole cycle under key 1), and deletes face 0. -/
theorem C1_adjacent_not_rejected :
    cyclicAdj [0, 1, 2, 3] 0 3 ∧
    (mesh_split_face (⟨[], [(0, [0, 1, 2, 3])], [], 0, 1⟩ : Mesh ℚ) 0 0 3).toOption.map
        (fun r => (r.2, dget 2 r.1.face, dget 1 r.1.face, dget 0 r.1.face)) =
      some ((1, 2), some [3, 0], some [0, 1, 2, 3], none) := by
  constructor
  · decide
  · decide

/-! ### C10 -/

/-- C10: calling `mesh_split_face` with `u = v` (a vertex of the face's
cycle `X ++ u :: Y`) raises no error: it returns two new face keys, the
second mapped to the one-vertex cycle `[u]` and the first to a cycle of
length `|C| + 1` containing `u` twice — both violating the face invariants,
so `u ≠ v` is an unstated precondition. -/
theorem C10_split_face_equal_vertices (m : Mesh α) (fkey u : Nat) (X Y : List Nat)
    (hC : dget fkey m.face = some (X ++ u :: Y))
    (hnd : (X ++ u :: Y).Nodup) (hfk : fkey < m.nextF) :
    ∃ m', mesh_split_face m fkey u u = .ok (m', m.nextF, m.nextF + 1) ∧
      dget (m.nextF + 1) m'.face = some [u] ∧
      dget m.nextF m'.face = some (u :: Y ++ (X ++ [u])) ∧
      ([u] : List Nat).length = 1 ∧
      (u :: Y ++ (X ++ [u])).count u = 2 ∧
      (u :: Y ++ (X ++ [u])).length = (X ++ u :: Y).length + 1 ∧
      dget fkey m'.face = none := by
  have huY : u ∉ Y := ((List.nodup_cons.mp (hnd.of_append_right)).1)
  have huX : u ∉ X := by
    intro hX
    exact (List.disjoint_of_nodup_append hnd) hX (by simp)
  have hi : pyIndex u (X ++ u :: Y) = X.length := pyIndex_first u X Y huX
  have hdrop : (X ++ u :: Y).drop (X.length) = u :: Y := by
    simp
  have htake : (X ++ u :: Y).take (X.length + 1) = X ++ [u] := by
    simpa using take_append_len X (u :: Y) 1
  have hF : (u :: Y ++ (X ++ [u]) : List Nat) =
      if pyIndex u (X ++ u :: Y) < pyIndex u (X ++ u :: Y)
      then ((X ++ u :: Y).drop (pyIndex u (X ++ u :: Y))).take
        (pyIndex u (X ++ u :: Y) + 1 - pyIndex u (X ++ u :: Y))
      else (X ++ u :: Y).drop (pyIndex u (X ++ u :: Y)) ++
        (X ++ u :: Y).take (pyIndex u (X ++ u :: Y) + 1) := by
    rw [if_neg (lt_irrefl _), hi, hdrop, htake]
  have hG : ([u] : List Nat) =
      if pyIndex u (X ++ u :: Y) < pyIndex u (X ++ u :: Y)
      then (X ++ u :: Y).drop (pyIndex u (X ++ u :: Y)) ++
        (X ++ u :: Y).take (pyIndex u (X ++ u :: Y) + 1)
      else ((X ++ u :: Y).drop (pyIndex u (X ++ u :: Y))).take
        (pyIndex u (X ++ u :: Y) + 1 - pyIndex u (X ++ u :: Y)) := by
    rw [if_neg (lt_irrefl _), hi, hdrop]
    simp
  have hred := mesh_split_face_ok m fkey u u (X ++ u :: Y)
    (u :: Y ++ (X ++ [u])) [u] hC (by simp) (by simp) (by omega) hF hG
  have hmax : max m.nextF (m.nextF + 1) = m.nextF + 1 :=
    Nat.max_eq_right (Nat.le_succ _)
  rw [add_face_none_key, add_face_none_key, add_face_none_nextF, hmax] at hred
  have hface : (add_face (add_face m none (u :: Y ++ (X ++ [u]))).1 none [u]).1.face =
      dinsert (m.nextF + 1) [u] (dinsert m.nextF (u :: Y ++ (X ++ [u])) m.face) := by
    rw [show (add_face (add_face m none (u :: Y ++ (X ++ [u]))).1 none [u]).1.face =
        dinsert (max m.nextF (m.nextF + 1)) [u]
          (dinsert m.nextF (u :: Y ++ (X ++ [u])) m.face) from rfl, hmax]
  rw [hface] at hred
  refine ⟨_, hred, ?_, ?_, rfl, ?_, ?_, ?_⟩
  · show dget (m.nextF + 1) (ddel fkey
      (dinsert (m.nextF + 1) [u] (dinsert m.nextF (u :: Y ++ (X ++ [u])) m.face))) = some [u]
    rw [dget_ddel_ne _ _ _ (by omega), dget_dinsert_self]
  · show dget m.nextF (ddel fkey
      (dinsert (m.nextF + 1) [u] (dinsert m.nextF (u :: Y ++ (X ++ [u])) m.face))) =
        some (u :: Y ++ (X ++ [u]))
    rw [dget_ddel_ne _ _ _ (by omega), dget_dinsert_ne _ _ _ _ (by omega),
      dget_dinsert_self]
  · have h1 : (u :: Y).count u = 1 := by
      simp [List.count_cons, List.count_eq_zero_of_not_mem huY]
    have h2 : (X ++ [u]).count u = 1 := by
      simp [List.count_append, List.count_eq_zero_of_not_mem huX]
    rw [List.count_append, h1, h2]
  · simp; omega
  · show dget fkey (ddel fkey
      (dinsert (m.nextF + 1) [u] (dinsert m.nextF (u :: Y ++ (X ++ [u])) m.face))) = none
    rw [dget_ddel_self]

/-- Witness for C8: a triangle with centroid `(1/3, 1/3)` survives clipping
against a surrounding square boundary and a far-away square hole, and the
centroid tests come out inside-boundary and outside-hole. -/
theorem C8_witness :
    (∀ b, (some [⟨-1, -1, 0⟩, ⟨2, -1, 0⟩, ⟨2, 2, 0⟩, ⟨-1, 2, 0⟩] :
          Option (List (P3 ℚ))) = some b → b ≠ [] →
       is_point_in_polygon_xy
         (face_centroid (delaunay_clip
           (⟨[(0, ⟨0, 0, 0⟩), (1, ⟨1, 0, 0⟩), (2, ⟨0, 1, 0⟩)],
             [(100, [0, 1, 2])], [], 3, 101⟩ : Mesh ℚ)
           (some [⟨-1, -1, 0⟩, ⟨2, -1, 0⟩, ⟨2, 2, 0⟩, ⟨-1, 2, 0⟩])
           (some [[⟨5, 5, 0⟩, ⟨6, 5, 0⟩, ⟨6, 6, 0⟩, ⟨5, 6, 0⟩]])) 100) b = true) ∧
    (∀ hs, (some [[⟨5, 5, 0⟩, ⟨6, 5, 0⟩, ⟨6, 6, 0⟩, ⟨5, 6, 0⟩]] :
          Option (List (List (P3 ℚ)))) = some hs → ∀ poly ∈ hs,
       is_point_in_polygon_xy
         (face_centroid (delaunay_clip
           (⟨[(0, ⟨0, 0, 0⟩), (1, ⟨1, 0, 0⟩), (2, ⟨0, 1, 0⟩)],
             [(100, [0, 1, 2])], [], 3, 101⟩ : Mesh ℚ)
           (some [⟨-1, -1, 0⟩, ⟨2, -1, 0⟩, ⟨2, 2, 0⟩, ⟨-1, 2, 0⟩])
           (some [[⟨5, 5, 0⟩, ⟨6, 5, 0⟩, ⟨6, 6, 0⟩, ⟨5, 6, 0⟩]])) 100) poly = false) :=
  C8_clip_centroids
    (⟨[(0, ⟨0, 0, 0⟩), (1, ⟨1, 0, 0⟩), (2, ⟨0, 1, 0⟩)],
      [(100, [0, 1, 2])], [], 3, 101⟩ : Mesh ℚ)
    (some [⟨-1, -1, 0⟩, ⟨2, -1, 0⟩, ⟨2, 2, 0⟩, ⟨-1, 2, 0⟩])
    (some [[⟨5, 5, 0⟩, ⟨6, 5, 0⟩, ⟨6, 6, 0⟩, ⟨5, 6, 0⟩]])
    100 [0, 1, 2]
    (by
      norm_num [delaunay_clip, holesStage, boundaryStage, clipBoundary, clipHoles,
        clipPass, face_centroid, centroid_points, is_point_in_polygon_xy, rot, dget,
        List.zip_cons_cons])

/-! ### C5 -/

/-- C5, counterexample to the claim as stated: on the jittered sites
`(0,0)` and `(3,4)` (bounding-box diagonal 5), the second super-triangle
vertex's y-coordinate is `c_y + (-1.0000000000001)·300·d`, which differs
from the claimed `c_y + d·300·(-1)`. -/
theorem C5_counterexample :
    (super_triangle [⟨0, 0, 0⟩, ⟨3, 4, 0⟩]).2.1.y ≠
      (centroid_points [(⟨0, 0, 0⟩ : P3 ℝ), ⟨3, 4, 0⟩]).y +
        distance_point_point
          ((bounding_box [⟨0, 0, 0⟩, ⟨3, 4, 0⟩]).getD 0 ⟨0, 0, 0⟩)
          ((bounding_box [⟨0, 0, 0⟩, ⟨3, 4, 0⟩]).getD 2 ⟨0, 0, 0⟩) * 300 * (-1) := by
  have hdist : distance_point_point (⟨0, 0, 0⟩ : P3 ℝ) ⟨3, 4, 0⟩ = 5 := by
    show Real.sqrt (((3:ℝ) - 0) ^ 2 + ((4:ℝ) - 0) ^ 2 + ((0:ℝ) - 0) ^ 2) = 5
    rw [show ((3:ℝ) - 0) ^ 2 + ((4:ℝ) - 0) ^ 2 + ((0:ℝ) - 0) ^ 2 = 5 ^ 2 by norm_num]
    exact Real.sqrt_sq (by norm_num)
  norm_num [super_triangle, bounding_box, centroid_points, add_vectors, hdist,
    min_def, max_def]

/-- C5 (amended): the super-triangle is built at `c + (0·D, 2·D, 0)`,
`c + (1.73205·D, -1.0000000000001·D, 0)` and `c + (-1.73205·D, -1·D, 0)`
where `D = 300·d` — with the code's truncated constant `1.73205` in place
of `√3` and `-1.0000000000001` in place of `-1` — and its three vertices get
the fresh keys `n, n+1, n+2` and form the single initial face (key 0) of
the mesh. -/
theorem C5_supertriangle_setup (pts : List (P3 ℝ)) ( _hne : pts ≠ []) :
    ∃ dis, dis = distance_point_point
        ((bounding_box pts).getD 0 ⟨0, 0, 0⟩)
        ((bounding_box pts).getD 2 ⟨0, 0, 0⟩) * 300 ∧
      (delaunay_setup pts).vertex =
        [(pts.length, add_vectors (centroid_points pts) ⟨0 * dis, 2 * dis, 0⟩),
         (pts.length + 1, add_vectors (centroid_points pts)
            ⟨1.73205 * dis, -1.0000000000001 * dis, 0⟩),
         (pts.length + 2, add_vectors (centroid_points pts)
            ⟨-1.73205 * dis, -1 * dis, 0⟩)] ∧
      (delaunay_setup pts).face =
        [(0, [pts.length, pts.length + 1, pts.length + 2])] := by
  refine ⟨_, rfl, ?_, ?_⟩
  · simp [delaunay_setup, super_triangle, add_vertex_key, add_face_none_vertex,
      Mesh.empty, dinsert, dget, heEnsure]
  · simp [delaunay_setup, super_triangle, add_vertex_key, add_face_none_face,
      Mesh.empty, dinsert, dget, heEnsure]

/-- Witness for the amended C5, at the two sites of the counterexample. -/
theorem C5_witness :
    ([⟨0, 0, 0⟩, ⟨3, 4, 0⟩] : List (P3 ℝ)) ≠ [] ∧
    (∃ dis, dis = distance_point_point
        ((bounding_box [⟨0, 0, 0⟩, ⟨3, 4, 0⟩]).getD 0 ⟨0, 0, 0⟩)
        ((bounding_box [⟨0, 0, 0⟩, ⟨3, 4, 0⟩]).getD 2 ⟨0, 0, 0⟩) * 300 ∧
      (delaunay_setup [⟨0, 0, 0⟩, ⟨3, 4, 0⟩]).vertex =
        [(([⟨0, 0, 0⟩, ⟨3, 4, 0⟩] : List (P3 ℝ)).length,
          add_vectors (centroid_points [⟨0, 0, 0⟩, ⟨3, 4, 0⟩]) ⟨0 * dis, 2 * dis, 0⟩),
         (([⟨0, 0, 0⟩, ⟨3, 4, 0⟩] : List (P3 ℝ)).length + 1,
          add_vectors (centroid_points [⟨0, 0, 0⟩, ⟨3, 4, 0⟩])
            ⟨1.73205 * dis, -1.0000000000001 * dis, 0⟩),
         (([⟨0, 0, 0⟩, ⟨3, 4, 0⟩] : List (P3 ℝ)).length + 2,
          add_vectors (centroid_points [⟨0, 0, 0⟩, ⟨3, 4, 0⟩])
            ⟨-1.73205 * dis, -1 * dis, 0⟩)] ∧
      (delaunay_setup [⟨0, 0, 0⟩, ⟨3, 4, 0⟩]).face =
        [(0, [([⟨0, 0, 0⟩, ⟨3, 4, 0⟩] : List (P3 ℝ)).length,
              ([⟨0, 0, 0⟩, ⟨3, 4, 0⟩] : List (P3 ℝ)).length + 1,
              ([⟨0, 0, 0⟩, ⟨3, 4, 0⟩] : List (P3 ℝ)).length + 2])]) :=
  ⟨by simp, C5_supertriangle_setup [⟨0, 0, 0⟩, ⟨3, 4, 0⟩] (by simp)⟩


/-! ### C3 -/

/-- C3: the claim fails on the code for the first site.  `newtris` is a
Python local that is only assigned inside the point-location branch (the
source's own comment says `# newtris should be intialised here`), so when
the scan finds no containing face while processing the first site — here a
mesh whose face dict is empty, so the scan trivially fails — the
`while newtris:` header reads an unbound local and raises `NameError`
instead of silently skipping the site. -/
theorem C3_first_site_location_failure :
    insertSites 10 (Mesh.empty : Mesh ℚ) [(0, ⟨5, 5, 0⟩)] none =
      .error .nameError := rfl

/-! ### C4 -/

/-- The Lawson-step behaviour on a colinear opposite face: the `Degenerate`
failure of `circle_from_points_xy` propagates out of `flipBody` — the source
has no handler around the circumcircle test. -/
theorem flipBody_degenerate_propagates (m : Mesh ℚ) (key fkey fop p q ka kb kc : Nat)
    (pt a b c : P3 ℚ)
    (hface : dget fkey m.face = some [key, p, q])
    (hpk : p ≠ key) (hqk : q ≠ key) (hpq : p ≠ q)
    (h1 : lookup2 m.halfedge p q = some (some fkey))
    (h2 : lookup2 m.halfedge q p = some (some fop))
    (hop : fop ≠ 0)
    (hof : dget fop m.face = some [ka, kb, kc])
    (ha : dget ka m.vertex = some a) (hb : dget kb m.vertex = some b)
    (hc : dget kc m.vertex = some c)
    (hdeg : circle_from_points_xy a b c = none) :
    flipBody m key pt fkey = .error .degenerate := by
  unfold flipBody
  rw [hface]
  dsimp only
  have hfilt : (([key, p, q] : List Nat).filter (fun x => decide (x ≠ key))) = [p, q] := by
    simp [List.filter, hpk, hqk]
  have hded : (([p, q] : List Nat).dedup) = [p, q] := by
    rw [List.dedup_cons_of_not_mem (by simp [hpq]),
      List.dedup_cons_of_not_mem (by simp), List.dedup_nil]
  rw [hfilt, hded]
  dsimp only
  rw [h1]
  dsimp only
  rw [if_neg (by simp)]
  rw [h2]
  dsimp only
  rw [if_pos (by simp [optTruthy, hop])]
  rw [hof]
  dsimp only
  rw [ha, hb, hc]
  dsimp only
  rw [hdeg]

/-- C4, counterexample to the claim as stated: with the inserted site's key
0 at `(0, 1)`, current triangle `[0, 1, 2]`, and the opposite face `[2, 1, 3]`
having the colinear coordinates `(1,0), (0,0), (2,0)`, the circumcircle test
fails with `Degenerate` and the error escapes the Lawson step — it is not
treated as "not in circle" and the loop does not continue. -/
theorem C4_counterexample :
    circle_from_points_xy ⟨1, 0, 0⟩ ⟨0, 0, 0⟩ ⟨2, 0, 0⟩ = none ∧
    flipBody
      (⟨[(0, ⟨0, 1, 0⟩), (1, ⟨0, 0, 0⟩), (2, ⟨1, 0, 0⟩), (3, ⟨2, 0, 0⟩)],
        [(7, [0, 1, 2]), (5, [2, 1, 3])],
        [(1, [(2, some 7)]), (2, [(1, some 5)])], 4, 8⟩ : Mesh ℚ)
      0 ⟨0, 1, 0⟩ 7 = .error .degenerate := by
  have hdeg : circle_from_points_xy (⟨1, 0, 0⟩ : P3 ℚ) ⟨0, 0, 0⟩ ⟨2, 0, 0⟩ = none := by
    rw [circle_from_points_xy, if_pos (by norm_num)]
  refine ⟨hdeg, ?_⟩
  exact flipBody_degenerate_propagates _ 0 7 5 1 2 2 1 3 ⟨0, 1, 0⟩
    ⟨1, 0, 0⟩ ⟨0, 0, 0⟩ ⟨2, 0, 0⟩ (by decide) (by decide) (by decide) (by decide)
    (by decide) (by decide) (by decide) (by decide) (by decide) (by decide)
    (by decide) hdeg

/-- C4 (amended): the insertion loop applies the circumcircle test with no
`Degenerate` handler; when `circle_from_points` fails on a colinear opposite
face, the error propagates out of the Lawson step and aborts the loop. -/
theorem C4_degenerate_aborts_loop (m : Mesh ℚ) (key fkey fop p q ka kb kc : Nat)
    (pt a b c : P3 ℚ)
    (hface : dget fkey m.face = some [key, p, q])
    (hpk : p ≠ key) (hqk : q ≠ key) (hpq : p ≠ q)
    (h1 : lookup2 m.halfedge p q = some (some fkey))
    (h2 : lookup2 m.halfedge q p = some (some fop))
    (hop : fop ≠ 0)
    (hof : dget fop m.face = some [ka, kb, kc])
    (ha : dget ka m.vertex = some a) (hb : dget kb m.vertex = some b)
    (hc : dget kc m.vertex = some c)
    (hdeg : circle_from_points_xy a b c = none) :
    flipBody m key pt fkey = .error .degenerate :=
  flipBody_degenerate_propagates m key fkey fop p q ka kb kc pt a b c
    hface hpk hqk hpq h1 h2 hop hof ha hb hc hdeg

/-- Witness for the amended C4, at the counterexample's inputs. -/
theorem C4_witness :
    flipBody
      (⟨[(0, ⟨0, 1, 0⟩), (1, ⟨0, 0, 0⟩), (2, ⟨1, 0, 0⟩), (3, ⟨2, 0, 0⟩)],
        [(7, [0, 1, 2]), (5, [2, 1, 3])],
        [(1, [(2, some 7)]), (2, [(1, some 5)])], 4, 8⟩ : Mesh ℚ)
      0 ⟨0, 1, 0⟩ 7 = .error .degenerate :=
  C4_degenerate_aborts_loop _ 0 7 5 1 2 2 1 3 ⟨0, 1, 0⟩
    ⟨1, 0, 0⟩ ⟨0, 0, 0⟩ ⟨2, 0, 0⟩ (by decide) (by decide) (by decide) (by decide)
    (by decide) (by decide) (by decide) (by decide) (by decide) (by decide)
    (by decide) (by rw [circle_from_points_xy, if_pos (by norm_num)])

/-- Witness for C7: splitting the pentagon `[0, 1, 2, 3, 4]` along the chord
`1–3` yields the arcs `[1, 2, 3]` and `[3, 4, 0, 1]` at the fresh keys 8, 9. -/
theorem C7_witness :
    ∃ m', mesh_split_face (⟨[], [(7, [0, 1, 2, 3, 4])], [], 0, 8⟩ : Mesh ℚ) 7 1 3 =
        .ok (m', 8, 9) ∧
      dget 8 m'.face = some (arcFromTo [0, 1, 2, 3, 4] 1 3) ∧
      dget 9 m'.face = some (arcFromTo [0, 1, 2, 3, 4] 3 1) ∧
      dget 8 ([(7, [0, 1, 2, 3, 4])] : List (Nat × List Nat)) = none ∧
      dget 9 ([(7, [0, 1, 2, 3, 4])] : List (Nat × List Nat)) = none ∧
      dget 7 m'.face = none ∧
      ∀ k, k ≠ 7 → k ≠ 8 → k ≠ 9 →
        dget k m'.face = dget k ([(7, [0, 1, 2, 3, 4])] : List (Nat × List Nat)) :=
  C7_split_face_two_arcs (⟨[], [(7, [0, 1, 2, 3, 4])], [], 0, 8⟩ : Mesh ℚ) 7 1 3
    [0, 1, 2, 3, 4] (by decide) (by decide) (by decide) (by decide) (by decide)
    (by decide)
    (by
      intro k x h
      by_cases hk : k = 7
      · subst hk; decide
      · simp [dget, hk] at h)

/-- Witness for C10: splitting the quad `[0, 1, 2, 3]` with `u = v = 2`
silently produces the one-vertex face `[2]` and the face `[2, 3, 0, 1, 2]`
with `2` appearing twice. -/
theorem C10_witness :
    ∃ m', mesh_split_face (⟨[], [(9, [0, 1, 2, 3])], [], 0, 10⟩ : Mesh ℚ) 9 2 2 =
        .ok (m', 10, 11) ∧
      dget 11 m'.face = some [2] ∧
      dget 10 m'.face = some (2 :: [3] ++ ([0, 1] ++ [2])) ∧
      ([2] : List Nat).length = 1 ∧
      (2 :: [3] ++ ([0, 1] ++ [2]) : List Nat).count 2 = 2 ∧
      (2 :: [3] ++ ([0, 1] ++ [2]) : List Nat).length =
        ([0, 1] ++ 2 :: [3] : List Nat).length + 1 ∧
      dget 9 m'.face = none :=
  C10_split_face_equal_vertices (⟨[], [(9, [0, 1, 2, 3])], [], 0, 10⟩ : Mesh ℚ) 9 2
    [0, 1] [3] (by decide) (by decide) (by decide)

end Compas
